import Mathlib

/-!
# Verification of the `bib` citation-gap analyzer

A shallow embedding of the gap-analysis engine (`src/lib/gap-analyzer.js`,
which also holds the `SemanticScholarAPI` client) and the two-tier API cache
(`src/lib/cache.js`), together with proofs of the spec's testable properties.

Conventions of the embedding:
* JavaScript strings are Lean `String`s; `undefined`/`null`-able fields are
  `Option`s, with `none` standing for the absent/null value.
* JavaScript truthiness is made explicit: a string is truthy iff nonempty,
  a number is truthy iff nonzero, an object is truthy iff present.
* `String.prototype.toLowerCase` is modelled by ASCII lowercasing (the
  identifiers and titles in scope are ASCII).
* JavaScript `Map`s are association lists in insertion order; `Map.set` on an
  existing key replaces the value in place, otherwise appends.
* `Math.random()` (used only in the unreachable title-less branch of
  `createReferenceKey`) is modelled by an explicit extra argument.
-/

/-- JS truthiness of a possibly-absent string: `undefined`, `null` and `""`
are falsy, every other string is truthy. -/
def truthyStr : Option String → Bool
  | none => false
  | some s => !s.isEmpty

/-- JS truthiness of a possibly-absent number: `undefined`, `null` and `0`
are falsy. -/
def truthyInt : Option Int → Bool
  | none => false
  | some n => n != 0

/-- ASCII model of `String.prototype.toLowerCase` (per-character). -/
def jsToLower (s : String) : String :=
  String.mk (s.data.map Char.toLower)

/-- The character class `\s` of JS regexes, restricted to ASCII:
space, tab, line feed, vertical tab, form feed, carriage return. -/
def jsIsSpace (c : Char) : Bool :=
  c = ' ' || c = '\t' || c = '\n' || c = '\x0b' || c = '\x0c' || c = '\r'

/-- The character class `\w` of JS regexes: ASCII letters, digits, underscore. -/
def jsIsWordChar (c : Char) : Bool :=
  c.isAlpha || c.isDigit || c = '_'

/-- `.replace(/[^\w\s]/g, ' ')`: every character that is neither a word
character nor whitespace becomes a space. -/
def punctToSpace (c : Char) : Char :=
  if jsIsWordChar c || jsIsSpace c then c else ' '

/-- `.replace(/\s+/g, ' ')`: collapse each maximal run of whitespace into a
single space.  The boolean records whether the previous character was part of
a whitespace run. -/
def collapseSpaces : Bool → List Char → List Char
  | _, [] => []
  | prevSpace, c :: rest =>
    if jsIsSpace c then
      if prevSpace then collapseSpaces true rest
      else ' ' :: collapseSpaces true rest
    else c :: collapseSpaces false rest

/-- `String.prototype.trim`: strip whitespace from both ends. -/
def jsTrim (l : List Char) : List Char :=
  ((l.dropWhile jsIsSpace).reverse.dropWhile jsIsSpace).reverse

/-- `GapAnalyzer.normalizeTitle` (identical to
`SemanticScholarAPI.normalizeTitle`): lowercase, punctuation to spaces,
collapse whitespace runs, trim.  The JS function returns `''` for a falsy
argument; callers in scope always pass a string, so the argument is `String`. -/
def normalizeTitle (title : String) : String :=
  String.mk (jsTrim (collapseSpaces false ((title.data.map Char.toLower).map punctToSpace)))

/-! ## JS `Map`s as insertion-ordered association lists -/

/-- `Map.prototype.has`. -/
def mapHas {β : Type} (m : List (String × β)) (k : String) : Bool :=
  m.any (fun p => p.1 = k)

/-- `Map.prototype.get` (`none` for a missing key). -/
def mapFind {β : Type} (m : List (String × β)) (k : String) : Option β :=
  (m.find? (fun p => p.1 = k)).map Prod.snd

/-- `Map.prototype.set`: replace in place if the key exists, else append. -/
def mapSet {β : Type} (m : List (String × β)) (k : String) (v : β) :
    List (String × β) :=
  if mapHas m k then m.map (fun p => if p.1 = k then (k, v) else p)
  else m ++ [(k, v)]

/-- `Map.prototype.delete` (restricted to its effect on the entries). -/
def mapDelete {β : Type} (m : List (String × β)) (k : String) :
    List (String × β) :=
  m.filter (fun p => p.1 ≠ k)

/-! ## Data model -/

/-- A bibliography record as produced by the bib parser and
`CitationAnalyzer.getUsedCitationsList`: the citation key plus the string
fields the analyzer reads.  Absent fields are `none`. -/
structure BibEntry where
  key : String
  title : Option String := none
  author : Option String := none
  year : Option String := none
  doi : Option String := none
  isbn : Option String := none
  url : Option String := none
  eprint : Option String := none
  type : Option String := none
deriving Repr, DecidableEq

/-- The `externalIds` object attached to a Semantic Scholar paper or
reference; only the `DOI` member is read. -/
structure ExternalIds where
  DOI : Option String := none
deriving Repr, DecidableEq

/-- A reference entry of a Remote Paper (Semantic Scholar shape, also the
shape CrossRef references are normalized into). -/
structure SSRef where
  title : Option String := none
  year : Option Int := none
  doi : Option String := none
  externalIds : Option ExternalIds := none
deriving Repr, DecidableEq

/-- The identifier set derived from a bibliography record by
`SemanticScholarAPI.extractIdentifiers`. -/
structure Identifiers where
  title : Option String
  normalizedTitle : String
  doi : Option String
  arxiv : Option String
  isbn : Option String
  author : Option String
  year : Option String
  type : Option String
deriving Repr, DecidableEq

/-! ## The DOI / arXiv URL regexes of `extractIdentifiers` -/

/-- Characters matched by `.` in a JS regex (no `s` flag): everything except
the line terminators. -/
def jsIsDotChar (c : Char) : Bool :=
  c ≠ '\n' && c ≠ '\r' && c.toNat ≠ 0x2028 && c.toNat ≠ 0x2029

/-- One anchored attempt of `/doi\.org\/(10\..+)/` at the head of the list:
literal `doi.org/10.` followed by at least one `.`-matching character; the
capture is `10.` plus the greedy run. -/
def doiOrgHere (l : List Char) : Option String :=
  if "doi.org/10.".toList.isPrefixOf l then
    if 1 ≤ ((l.drop 11).takeWhile jsIsDotChar).length then
      some (String.mk ("10.".toList ++ (l.drop 11).takeWhile jsIsDotChar))
    else none
  else none

/-- `url.match(/doi\.org\/(10\..+)/)`: leftmost successful anchored attempt. -/
def doiOrgMatch : List Char → Option String
  | [] => none
  | c :: rest =>
    match doiOrgHere (c :: rest) with
    | some cap => some cap
    | none => doiOrgMatch rest

/-- Take greedily at most `n` leading digits (for `\d{4}` and `\d{4,5}`). -/
def takeDigits (n : Nat) (l : List Char) : List Char :=
  (l.take n).takeWhile Char.isDigit

/-- What follows `arxiv.org/` with the optional `abs/` consumed. -/
def arxivTail (l : List Char) : List Char :=
  if "abs/".toList.isPrefixOf (l.drop 10) then (l.drop 10).drop 4 else l.drop 10

/-- One anchored attempt of `/arxiv\.org\/(?:abs\/)?(\d{4}\.\d{4,5})/` at the
head of the list; the capture is the digit group. -/
def arxivHere (l : List Char) : Option String :=
  if "arxiv.org/".toList.isPrefixOf l then
    if (takeDigits 4 (arxivTail l)).length = 4 then
      match (arxivTail l).drop 4 with
      | '.' :: tl =>
        if 4 ≤ (takeDigits 5 tl).length then
          some (String.mk (takeDigits 4 (arxivTail l) ++ '.' :: takeDigits 5 tl))
        else none
      | _ => none
    else none
  else none

/-- `url.match(/arxiv\.org\/(?:abs\/)?(\d{4}\.\d{4,5})/)`: leftmost
successful anchored attempt. -/
def arxivMatch : List Char → Option String
  | [] => none
  | c :: rest =>
    match arxivHere (c :: rest) with
    | some cap => some cap
    | none => arxivMatch rest

/-- `String.prototype.includes` for a pattern. -/
def strIncludes (s pat : String) : Bool :=
  s.toList.tails.any (fun t => pat.toList.isPrefixOf t)

/-- `isbn.replace(/[\s-]/g, '')`: strip whitespace and hyphens. -/
def stripIsbn (s : String) : String :=
  String.mk (s.data.filter (fun c => !(jsIsSpace c || c = '-')))

/-- `SemanticScholarAPI.extractIdentifiers`: derive DOI (field, else from a
`doi.org` URL), arXiv id (eprint field, else from an `arxiv.org` URL), ISBN
(whitespace/hyphens stripped), normalized title and year from a bibliography
record.  Pure; missing fields yield `none`. -/
def extractIdentifiers (b : BibEntry) : Identifiers :=
  let doi0 : Option String := if truthyStr b.doi then b.doi else none
  let doi1 : Option String :=
    if truthyStr b.url ∧ strIncludes (b.url.getD "") "doi.org/" then
      match doiOrgMatch (b.url.getD "").toList with
      | some cap => some cap
      | none => doi0
    else doi0
  let arxiv0 : Option String := if truthyStr b.eprint then b.eprint else none
  let arxiv1 : Option String :=
    if truthyStr b.url ∧ strIncludes (b.url.getD "") "arxiv.org/" then
      match arxivMatch (b.url.getD "").toList with
      | some cap => some cap
      | none => arxiv0
    else arxiv0
  { title := b.title
    normalizedTitle := normalizeTitle (b.title.getD "")
    doi := doi1
    arxiv := arxiv1
    isbn := if truthyStr b.isbn then some (stripIsbn (b.isbn.getD "")) else none
    author := b.author
    year := b.year
    type := b.type }

/-! ## Existing-papers index (`GapAnalyzer.buildExistingPapersIndex`) -/

/-- The four mappings of the existing-papers index. -/
structure ExistingIndex where
  byDOI : List (String × BibEntry) := []
  byISBN : List (String × BibEntry) := []
  byNormalizedTitle : List (String × BibEntry) := []
  byTitleAndYear : List (String × BibEntry) := []
deriving Repr, DecidableEq

/-- Processing of one used citation inside `buildExistingPapersIndex`'s loop. -/
def indexCitation (idx : ExistingIndex) (c : BibEntry) : ExistingIndex :=
  let ids := extractIdentifiers c
  let idx :=
    if truthyStr ids.doi then
      { idx with byDOI := mapSet idx.byDOI (jsToLower (ids.doi.getD "")) c }
    else idx
  let idx :=
    if truthyStr ids.isbn then
      { idx with byISBN := mapSet idx.byISBN (ids.isbn.getD "") c }
    else idx
  if !ids.normalizedTitle.isEmpty then
    let idx := { idx with
      byNormalizedTitle := mapSet idx.byNormalizedTitle ids.normalizedTitle c }
    if truthyStr ids.year then
      let titleYear := ids.normalizedTitle ++ "|" ++ ids.year.getD ""
      { idx with byTitleAndYear := mapSet idx.byTitleAndYear titleYear c }
    else idx
  else idx

/-- `GapAnalyzer.buildExistingPapersIndex`, parametrized by the used-citations
list the citation analyzer supplies. -/
def buildExistingPapersIndex (usedCitations : List BibEntry) : ExistingIndex :=
  usedCitations.foldl indexCitation {}

/-! ## Matching a reference against the bibliography -/

/-- `GapAnalyzer.extractDOIFromSemanticScholar`: take `externalIds.DOI` when
the `externalIds` object is present and its `DOI` member is truthy. -/
def extractDOIFromSemanticScholar (paper : SSRef) : Option String :=
  match paper.externalIds with
  | some e => if truthyStr e.DOI then e.DOI else none
  | none => none

/-- `GapAnalyzer.isPaperInBibliography` as a disjunction of its three
early-return checks: DOI (from `externalIds` only), then normalized
title + year, then normalized title alone. -/
def isPaperInBibliography (ref : SSRef) (idx : ExistingIndex) : Bool :=
  (match extractDOIFromSemanticScholar ref with
   | some d => mapHas idx.byDOI (jsToLower d)
   | none => false)
  ||
  (if truthyStr ref.title ∧ truthyInt ref.year then
     mapHas idx.byTitleAndYear
       (normalizeTitle (ref.title.getD "") ++ "|" ++ toString (ref.year.getD 0))
   else false)
  ||
  (if truthyStr ref.title then
     mapHas idx.byNormalizedTitle (normalizeTitle (ref.title.getD ""))
   else false)

/-- `GapAnalyzer.createReferenceKey`.  `rand` models the `Math.random()` call
of the title-less fallback branch (unreachable from `analyzeGaps`, which
skips title-less references). -/
def createReferenceKey (rand : String) (ref : SSRef) : String :=
  let doi : Option String :=
    if truthyStr ref.doi then ref.doi else extractDOIFromSemanticScholar ref
  match doi with
  | some d => "doi:" ++ jsToLower d
  | none =>
    if truthyStr ref.title ∧ truthyInt ref.year then
      "title_year:" ++ normalizeTitle (ref.title.getD "") ++ "|" ++
        toString (ref.year.getD 0)
    else if truthyStr ref.title then
      "title:" ++ normalizeTitle (ref.title.getD "")
    else
      "unknown:" ++ rand

/-! ## Aggregation (`GapAnalyzer.analyzeGaps`) -/

/-- A Reference Frequency Record. -/
structure FreqRec where
  count : Nat
  reference : SSRef
  citedBy : List String
deriving Repr, DecidableEq

/-- One reference list paired with the citation key of its source paper:
one entry of the `referencesMap` built by `getReferencesForCitations`
(the `paper` member is not read by `analyzeGaps`). -/
abbrev ReferencesMap := List (String × List SSRef)

/-- The Reference Key `analyzeGaps` computes for a reference.  The
`Math.random()` argument of `createReferenceKey` is fixed arbitrarily: the
title-less branch that reads it is unreachable for the titled references
`analyzeGaps` aggregates. -/
def refKeyOf (ref : SSRef) : String := createReferenceKey "0.5" ref

/-- The body of `analyzeGaps`'s inner loop for a single reference `ref` of the
source with citation key `citationKey`: skip title-less references and
references already in the bibliography; otherwise create the frequency record
if absent, increment its count, and append the citation key if new. -/
def processRef (idx : ExistingIndex) (citationKey : String)
    (freq : List (String × FreqRec)) (ref : SSRef) : List (String × FreqRec) :=
  if !truthyStr ref.title then freq
  else if isPaperInBibliography ref idx then freq
  else
    let refKey := refKeyOf ref
    let freq :=
      if !mapHas freq refKey then
        mapSet freq refKey { count := 0, reference := ref, citedBy := [] }
      else freq
    match mapFind freq refKey with
    | some refData =>
      let refData := { refData with count := refData.count + 1 }
      let refData :=
        if !refData.citedBy.contains citationKey then
          { refData with citedBy := refData.citedBy ++ [citationKey] }
        else refData
      mapSet freq refKey refData
    | none => freq

/-- The frequency map after `analyzeGaps`'s two nested loops. -/
def referenceFrequency (idx : ExistingIndex) (referencesMap : ReferencesMap) :
    List (String × FreqRec) :=
  referencesMap.foldl
    (fun freq entry => entry.2.foldl (processRef idx entry.1) freq) []

/-- `gaps.sort((a, b) => b.count - a.count)`: stable insertion of one record
into a list already sorted by descending count. -/
def insertByCountDesc (x : FreqRec) : List FreqRec → List FreqRec
  | [] => [x]
  | y :: ys => if y.count < x.count then x :: y :: ys else y :: insertByCountDesc x ys

/-- Stable sort by descending count (the effect of JS's stable
`Array.prototype.sort` under the comparator `b.count - a.count`). -/
def sortByCountDesc : List FreqRec → List FreqRec
  | [] => []
  | x :: xs => insertByCountDesc x (sortByCountDesc xs)

/-- `GapAnalyzer.analyzeGaps`, parametrized by the used-citations list:
aggregate, filter by `minCitations`, sort by descending count. -/
def analyzeGaps (usedCitations : List BibEntry) (referencesMap : ReferencesMap)
    (minCitations : Nat) : List FreqRec :=
  let idx := buildExistingPapersIndex usedCitations
  let freq := referenceFrequency idx referencesMap
  let gaps := (freq.filter (fun p => minCitations ≤ p.2.count)).map Prod.snd
  sortByCountDesc gaps

/-! ## The two-tier cache (`src/lib/cache.js`)

The durable tier is modelled by the per-key payload files (`files`) and the
in-process index map (`cacheIndex`); writing the `index.json` mirror of
`cacheIndex` to disk has no further effect within a run and is not modelled.
The `md5` cache key is modelled as the request path itself (the hash is
injective by the spec's collision-resistance assumption).  `α` is the type of
JSON payloads stored by `set`. -/

/-- A cache entry as written by `APICache.set`. -/
structure CacheEntry (α : Type) where
  data : α
  timestamp : Nat
  requestPath : String
deriving Repr, DecidableEq

/-- An entry of the cache index: timestamp and original request path. -/
structure IndexInfo where
  timestamp : Nat
  requestPath : String
deriving Repr, DecidableEq

/-- The state of one `APICache`: hot tier, index, durable per-key files. -/
structure CacheState (α : Type) where
  memoryCache : List (String × CacheEntry α) := []
  cacheIndex : List (String × IndexInfo) := []
  files : List (String × CacheEntry α) := []
deriving Repr, DecidableEq

/-- `this.maxAge = 7 * 24 * 60 * 60 * 1000` (7 days in milliseconds). -/
def maxAge : Nat := 7 * 24 * 60 * 60 * 1000

/-- `APICache.isValid`: the entry is younger than `maxAge` (`now` models
`Date.now()`; JS subtraction on a too-old entry and Nat truncation agree on
the comparison's outcome). -/
def isValid (timestamp now : Nat) : Bool :=
  now - timestamp < maxAge

/-- `APICache.generateCacheKey`: the md5 hash, modelled injectively by the
request path itself. -/
def generateCacheKey (requestPath : String) : String := requestPath

/-- The durable-tier half of `APICache.get`: consult the index; on a fresh
hit read the payload file through into the hot tier; treat a missing or
unreadable payload file as a miss and evict its index entry; purge an
expired index entry together with its file. -/
def cacheGetDisk {α : Type} (st : CacheState α) (now : Nat)
    (requestPath : String) : Option α × CacheState α :=
  let key := generateCacheKey requestPath
  match mapFind st.cacheIndex key with
  | some cacheInfo =>
    if isValid cacheInfo.timestamp now then
      match mapFind st.files key with
      | some cached =>
        (some cached.data, { st with memoryCache := mapSet st.memoryCache key cached })
      | none =>
        (none, { st with cacheIndex := mapDelete st.cacheIndex key })
    else
      (none, { st with cacheIndex := mapDelete st.cacheIndex key,
                       files := mapDelete st.files key })
  | none => (none, st)

/-- `APICache.get`: hot tier first (evicting an expired entry), then the
durable tier via `cacheGetDisk`.  Returns the JS return value — `none` is
the `null` returned on a miss — and the successor state. -/
def cacheGet {α : Type} (st : CacheState α) (now : Nat) (requestPath : String) :
    Option α × CacheState α :=
  let key := generateCacheKey requestPath
  match mapFind st.memoryCache key with
  | some cached =>
    if isValid cached.timestamp now then (some cached.data, st)
    else cacheGetDisk { st with memoryCache := mapDelete st.memoryCache key } now requestPath
  | none => cacheGetDisk st now requestPath

/-- `APICache.set`: write the hot tier, then attempt the durable write.
`diskOk` models whether `fs.writeFileSync` of the payload file succeeds; on
failure the error is logged and swallowed, leaving index and files
untouched. -/
def cacheSet {α : Type} (st : CacheState α) (now : Nat) (requestPath : String)
    (data : α) (diskOk : Bool) : CacheState α :=
  let key := generateCacheKey requestPath
  let cacheEntry : CacheEntry α := { data, timestamp := now, requestPath }
  let st := { st with memoryCache := mapSet st.memoryCache key cacheEntry }
  if diskOk then
    { st with files := mapSet st.files key cacheEntry,
              cacheIndex := mapSet st.cacheIndex key
                { timestamp := now, requestPath } }
  else st

/-- `APICache.cleanup`: drop every expired entry from the hot tier, and every
expired index entry together with its payload file; returns the number of
removals. -/
def cacheCleanup {α : Type} (st : CacheState α) (now : Nat) :
    Nat × CacheState α :=
  let expiredMem := st.memoryCache.filter (fun p => !isValid p.2.timestamp now)
  let expiredIdx := st.cacheIndex.filter (fun p => !isValid p.2.timestamp now)
  (expiredMem.length + expiredIdx.length,
   { memoryCache := st.memoryCache.filter (fun p => isValid p.2.timestamp now)
     cacheIndex := st.cacheIndex.filter (fun p => isValid p.2.timestamp now)
     files := st.files.filter (fun p => !mapHas expiredIdx p.1) })

/-- `APICache.clear`: empty the hot tier, delete every cache file, empty the
index. -/
def cacheClear {α : Type} (_st : CacheState α) : CacheState α :=
  { memoryCache := [], cacheIndex := [], files := [] }

/-! ## `SemanticScholarAPI.makeRequest`

The network is an oracle `resp : Nat → HttpResp α` giving the server's
response to the `k`-th attempt of this request.  Payloads are
`Option α` with `none` for JSON `null`: exactly the value space the JS code
stores (`cache.set(path, null)` on a 404) and compares against
(`cachedResult !== null`).  The returned list collects the backoff sleeps, in
milliseconds, in order. -/

/-- Constants of `SemanticScholarAPI`'s constructor. -/
def maxRetries : Nat := 4

/-- `this.baseBackoffTime = 3000`. -/
def baseBackoffTime : Nat := 3000

/-- `this.maxBackoffTime = 30000`. -/
def maxBackoffTime : Nat := 30000

/-- One HTTP response as discriminated by `makeRequest`'s status checks. -/
inductive HttpResp (α : Type) where
  | ok (jsonData : α)
  | notFound
  | tooManyRequests
  | otherStatus (statusCode : Nat) (body : String)
deriving Repr, DecidableEq

/-- The settled outcome of one `makeRequest` promise. -/
inductive MRResult (α : Type) where
  | success (data : Option α) (fromCache : Bool)
  | error (msg : String)
deriving Repr, DecidableEq

/-- One step family of `SemanticScholarAPI.makeRequest` over the response
oracle: cache check (a stored `null` is indistinguishable from a miss), then
the status dispatch: 200 caches and resolves, 404 caches `null` and resolves,
429 sleeps `min(baseBackoffTime * 2 ^ retryCount, maxBackoffTime)` and
retries while `retryCount < maxRetries`, every other status rejects
immediately.  The structural counter `gas` carries `maxRetries - retryCount`:
it is positive exactly when the JS guard `retryCount < this.maxRetries`
holds, and each retry decrements it while incrementing `retryCount`, keeping
the two in step. -/
def makeRequestGo {α : Type} (resp : Nat → HttpResp α) (path : String)
    (now : Nat) : Nat → Nat → CacheState (Option α) →
    MRResult α × CacheState (Option α) × List Nat
  | gas, retryCount, st =>
    let got := cacheGet st now path
    match got.1.join, got.2 with
    | some d, st => (.success (some d) true, st, [])
    | none, st =>
      match resp retryCount with
      | .ok jsonData =>
        (.success (some jsonData) false, cacheSet st now path (some jsonData) true, [])
      | .notFound =>
        (.success none false, cacheSet st now path none true, [])
      | .tooManyRequests =>
        match gas with
        | gas' + 1 =>
          let backoffTime := min (baseBackoffTime * 2 ^ retryCount) maxBackoffTime
          let r := makeRequestGo resp path now gas' (retryCount + 1) st
          (r.1, r.2.1, backoffTime :: r.2.2)
        | 0 =>
          (.error ("Rate limit exceeded after " ++ toString maxRetries ++ " retries"),
           st, [])
      | .otherStatus statusCode body =>
        (.error ("HTTP " ++ toString statusCode ++ ": " ++ body), st, [])

/-- `SemanticScholarAPI.makeRequest path retryCount`: run the recursion with
its gas supply `maxRetries - retryCount`.  The result carries the settled
promise, the cache state left behind, and the backoff sleeps in order. -/
def makeRequest {α : Type} (resp : Nat → HttpResp α) (path : String)
    (now : Nat) (st : CacheState (Option α)) (retryCount : Nat) :
    MRResult α × CacheState (Option α) × List Nat :=
  makeRequestGo resp path now (maxRetries - retryCount) retryCount st

/-! ## `SemanticScholarAPI.findPaper`

The three lookup strategies are abstracted into an oracle: `byDOI` is the
net effect of `getPaperByDOI` (errors are caught and become `null`), `byArxiv`
the arXiv `makeRequest` branch (an error is warned and swallowed; a 404's
`null` data falls through), `search` is `searchPaper title 1` (errors become
`[]`) and `byId` is `getPaperById`.  `α` is the paper payload type. -/

/-- A hit of the paper-search endpoint; only `paperId` is read. -/
structure SearchHit where
  paperId : String
deriving Repr, DecidableEq

/-- The lookup oracle for `findPaper`. -/
structure SSOracle (α : Type) where
  byDOI : String → Option α
  byArxiv : String → Option α
  search : String → List SearchHit
  byId : String → Option α

/-- The title-search fallback of `findPaper`: when the record's title is
truthy, `searchPaper(title, 1)` and, given a top hit, `getPaperById` of its
provider-assigned id; without hits (or with a falsy title) null. -/
def titleSearchStep {α : Type} (o : SSOracle α) (title : Option String) : Option α :=
  if truthyStr title then
    match o.search (title.getD "") with
    | hit :: _ => o.byId hit.paperId
    | [] => none
  else none

/-- `SemanticScholarAPI.findPaper`: DOI lookup when a DOI identifier is
present, falling through on a null result; then the arXiv lookup when an
arXiv identifier is present, falling through on a null result; then the
title-search step. -/
def findPaper {α : Type} (o : SSOracle α) (bibEntry : BibEntry) : Option α :=
  let identifiers := extractIdentifiers bibEntry
  let viaDoi : Option α :=
    if truthyStr identifiers.doi then o.byDOI (identifiers.doi.getD "") else none
  match viaDoi with
  | some paper => some paper
  | none =>
    let viaArxiv : Option α :=
      if truthyStr identifiers.arxiv then o.byArxiv (identifiers.arxiv.getD "")
      else none
    match viaArxiv with
    | some paper => some paper
    | none => titleSearchStep o identifiers.title

/-! ## `GapAnalyzer.findGaps` option resolution -/

/-- The `options` object accepted by `findGaps`; `none` is an absent member. -/
structure FindGapsOptions where
  minCitations : Option Int := none
  limitPapers : Option Int := none
  quiet : Option Bool := none
  includeUnused : Option Bool := none
deriving Repr, DecidableEq

/-- `options.minCitations || 2`: the default applies to every falsy value,
`0` included. -/
def resolveMinCitations (opts : FindGapsOptions) : Int :=
  match opts.minCitations with
  | some n => if n != 0 then n else 2
  | none => 2

/-- `options.limitPapers || null`: a falsy value, `0` included, becomes
`null`. -/
def resolveLimitPapers (opts : FindGapsOptions) : Option Int :=
  match opts.limitPapers with
  | some n => if n != 0 then some n else none
  | none => none

/-- The `limitPapers` guard of `getReferencesForCitations`:
`if (limitPapers && limitPapers > 0) citations = citations.slice(0, limitPapers)`. -/
def applyLimitPapers {β : Type} (limitPapers : Option Int) (citations : List β) :
    List β :=
  match limitPapers with
  | some n => if n != 0 && 0 < n then citations.take n.toNat else citations
  | none => citations

/-! ## Association-list lemmas for the JS `Map` model -/

theorem mapHas_iff_exists {β : Type} {m : List (String × β)} {k : String} :
    mapHas m k = true ↔ ∃ p ∈ m, p.1 = k := by
  simp [mapHas]

theorem mapFind_eq_none_of_not_has {β : Type} {m : List (String × β)} {k : String}
    (h : mapHas m k = false) : mapFind m k = none := by
  unfold mapFind
  rw [Option.map_eq_none', List.find?_eq_none]
  intro p hp
  simp only [mapHas, List.any_eq_false] at h
  simpa using h p hp

theorem mapFind_mapSet_self {β : Type} (m : List (String × β)) (k : String) (v : β) :
    mapFind (mapSet m k v) k = some v := by
  unfold mapFind mapSet
  by_cases h : mapHas m k
  · rw [if_pos h, List.find?_map]
    have hfun : ((fun p : String × β => decide (p.1 = k)) ∘
        fun p => if p.1 = k then (k, v) else p) = fun p : String × β => decide (p.1 = k) := by
      funext p
      by_cases hp : p.1 = k <;> simp [hp]
    rw [hfun]
    rcases mapHas_iff_exists.mp h with ⟨p0, hp0m, hp0⟩
    have hsome : (m.find? fun p : String × β => decide (p.1 = k)).isSome := by
      rw [List.find?_isSome]
      exact ⟨p0, hp0m, by simpa using hp0⟩
    rcases Option.isSome_iff_exists.mp hsome with ⟨q, hq⟩
    have hqk : q.1 = k := by simpa using List.find?_some hq
    simp [hq, hqk]
  · rw [if_neg h, List.find?_append]
    have h0 : mapHas m k = false := by simpa using h
    have hm : (m.find? fun p : String × β => decide (p.1 = k)) = none := by
      rw [List.find?_eq_none]
      intro p hp
      simp only [mapHas, List.any_eq_false] at h0
      simpa using h0 p hp
    simp [hm, List.find?]

theorem mapFind_mapSet_ne {β : Type} (m : List (String × β)) {k k' : String} (v : β)
    (hne : k' ≠ k) : mapFind (mapSet m k v) k' = mapFind m k' := by
  unfold mapFind mapSet
  by_cases h : mapHas m k
  · rw [if_pos h, List.find?_map]
    have hfun : ((fun p : String × β => decide (p.1 = k')) ∘
        fun p => if p.1 = k then (k, v) else p) = fun p : String × β => decide (p.1 = k') := by
      funext p
      by_cases hp : p.1 = k
      · simp [hp, Ne.symm hne]
      · simp [hp]
    rw [hfun]
    cases hf : m.find? fun p : String × β => decide (p.1 = k') with
    | none => simp
    | some q =>
      have hqk : q.1 = k' := by simpa using List.find?_some hf
      have hq' : (if q.1 = k then (k, v) else q) = q := by
        rw [if_neg]
        rw [hqk]
        exact hne
      simp [hq']
  · rw [if_neg h, List.find?_append]
    have h1 : ([(k, v)].find? fun p : String × β => decide (p.1 = k')) = none := by
      simp [List.find?, Ne.symm hne]
    cases hf : m.find? fun p : String × β => decide (p.1 = k') <;> simp [hf, h1]

theorem mapHas_mapSet {β : Type} (m : List (String × β)) (k k' : String) (v : β) :
    mapHas (mapSet m k v) k' = (decide (k' = k) || mapHas m k') := by
  apply Bool.eq_iff_iff.mpr
  simp only [Bool.or_eq_true, decide_eq_true_eq, mapHas_iff_exists]
  unfold mapSet
  by_cases h : mapHas m k
  · rw [if_pos h]
    constructor
    · rintro ⟨p, hp, hpk⟩
      rcases List.mem_map.mp hp with ⟨q, hq, rfl⟩
      by_cases hqk : q.1 = k
      · left
        simp only [hqk, if_true] at hpk
        exact hpk.symm
      · right
        exact ⟨q, hq, by simpa [hqk] using hpk⟩
    · rintro (rfl | ⟨q, hq, hqk⟩)
      · rcases mapHas_iff_exists.mp h with ⟨q, hq, hqk⟩
        refine ⟨(k', v), List.mem_map.mpr ⟨q, hq, ?_⟩, rfl⟩
        simp [hqk]
      · by_cases hqk2 : q.1 = k
        · rcases mapHas_iff_exists.mp h with ⟨q0, hq0, hq0k⟩
          refine ⟨(k, v), List.mem_map.mpr ⟨q0, hq0, by simp [hq0k]⟩, ?_⟩
          rw [← hqk, ← hqk2]
        · exact ⟨q, List.mem_map.mpr ⟨q, hq, by simp [hqk2]⟩, hqk⟩
  · rw [if_neg h]
    constructor
    · rintro ⟨p, hp, hpk⟩
      rcases List.mem_append.mp hp with hm | hs
      · exact Or.inr ⟨p, hm, hpk⟩
      · simp only [List.mem_singleton] at hs
        subst hs
        exact Or.inl hpk.symm
    · rintro (rfl | ⟨q, hq, hqk⟩)
      · exact ⟨(k', v), List.mem_append.mpr (Or.inr (by simp)), rfl⟩
      · exact ⟨q, List.mem_append.mpr (Or.inl hq), hqk⟩

theorem mem_mapSet_iff {β : Type} {m : List (String × β)} {k : String} {v : β}
    {p : String × β} :
    p ∈ mapSet m k v ↔ p = (k, v) ∨ (p ∈ m ∧ p.1 ≠ k) := by
  unfold mapSet
  by_cases h : mapHas m k
  · rw [if_pos h]
    simp only [List.mem_map]
    constructor
    · rintro ⟨q, hq, rfl⟩
      by_cases hqk : q.1 = k
      · simp [hqk]
      · simp [hqk, hq]
    · rintro (rfl | ⟨hpm, hpk⟩)
      · rcases mapHas_iff_exists.mp h with ⟨q, hq, hqk⟩
        exact ⟨q, hq, by simp [hqk]⟩
      · exact ⟨p, hpm, by simp [hpk]⟩
  · rw [if_neg h]
    simp only [List.mem_append, List.mem_singleton]
    constructor
    · rintro (hm | rfl)
      · by_cases hpk : p.1 = k
        · exact absurd (mapHas_iff_exists.mpr ⟨p, hm, hpk⟩) h
        · exact Or.inr ⟨hm, hpk⟩
      · exact Or.inl rfl
    · rintro (rfl | ⟨hm, _⟩)
      · exact Or.inr rfl
      · exact Or.inl hm

theorem mem_of_mapFind {β : Type} {m : List (String × β)} {k : String} {v : β}
    (h : mapFind m k = some v) : (k, v) ∈ m := by
  unfold mapFind at h
  cases hf : m.find? fun p : String × β => decide (p.1 = k) with
  | none => simp [hf] at h
  | some q =>
    have hqm := List.mem_of_find?_eq_some hf
    have hqk : q.1 = k := by simpa using List.find?_some hf
    rw [hf] at h
    simp only [Option.map_some'] at h
    have hq : q = (k, v) := by
      cases q
      simp_all
    exact hq ▸ hqm

theorem find?_filter_of_imp {γ : Type} (l : List γ) (p q : γ → Bool)
    (h : ∀ x, p x = true → q x = true) : (l.filter q).find? p = l.find? p := by
  induction l with
  | nil => rfl
  | cons x xs ih =>
    rw [List.filter_cons]
    by_cases hqx : q x = true
    · rw [if_pos hqx]
      by_cases hpx : p x = true
      · rw [List.find?_cons_of_pos _ hpx, List.find?_cons_of_pos _ hpx]
      · rw [List.find?_cons_of_neg _ (by simpa using hpx),
          List.find?_cons_of_neg _ (by simpa using hpx), ih]
    · rw [if_neg hqx, ih]
      have hpx : ¬p x = true := fun hp => hqx (h x hp)
      rw [List.find?_cons_of_neg _ (by simpa using hpx)]

theorem mapFind_mapDelete_ne {β : Type} (m : List (String × β)) {k k' : String}
    (hne : k' ≠ k) : mapFind (mapDelete m k) k' = mapFind m k' := by
  unfold mapFind mapDelete
  rw [find?_filter_of_imp]
  intro x hx
  have hxk : x.1 = k' := by simpa using hx
  simp [hxk, hne]

theorem mapFind_mapDelete_self {β : Type} (m : List (String × β)) (k : String) :
    mapFind (mapDelete m k) k = none := by
  unfold mapFind mapDelete
  rw [Option.map_eq_none', List.find?_eq_none]
  intro p hp
  have h2 := (List.mem_filter.mp hp).2
  simpa using h2

/-! ## C10: findGaps option resolution under JS truthiness -/

/-- The options object `{minCitations: 0, limitPapers: 0}`. -/
def c10Options : FindGapsOptions := { minCitations := some 0, limitPapers := some 0 }

/-- C10: `findGaps` resolves its options with JS truthiness, so
`minCitations: 0` yields the default threshold `2`, and `limitPapers: 0`
resolves to `null`, under which `getReferencesForCitations` applies no
truncation at all. -/
theorem findGaps_zero_options_defaults {β : Type} (citations : List β) :
    resolveMinCitations c10Options = 2 ∧
    resolveLimitPapers c10Options = none ∧
    applyLimitPapers (resolveLimitPapers c10Options) citations = citations :=
  ⟨rfl, rfl, rfl⟩

/-! ## C3: a 404 is cached but the cache entry never answers -/

/-- A server that answers 404 to every attempt. -/
def c3Resp : Nat → HttpResp Nat := fun _ => HttpResp.notFound

/-- C3 (failing): after a 404, `makeRequest` does store an explicit `null`
payload in both cache tiers — but a second `makeRequest` for the same path
still reports `fromCache = false`: `cache.get` returns the stored `null`,
which the guard `cachedResult !== null` cannot tell from a miss, so the
network lookup is repeated instead of being answered from the cache. -/
theorem makeRequest_404_cached_but_not_served :
    (makeRequest c3Resp "p" 0 {} 0).1 = MRResult.success none false ∧
    mapFind (makeRequest c3Resp "p" 0 {} 0).2.1.memoryCache "p" =
      some { data := none, timestamp := 0, requestPath := "p" } ∧
    mapFind (makeRequest c3Resp "p" 0 {} 0).2.1.cacheIndex "p" =
      some { timestamp := 0, requestPath := "p" } ∧
    (makeRequest c3Resp "p" 0 (makeRequest c3Resp "p" 0 {} 0).2.1 0).1 =
      MRResult.success none false :=
  ⟨rfl, rfl, rfl, rfl⟩

/-! ## C5: cache round-trip and expiry purge -/

/-- C5: a `set` followed by a `get` on the same path within the 7-day window
returns the payload unchanged; a `get` strictly after the window returns
absent and purges the entry from the hot tier, the index and the payload
files. -/
theorem cache_roundtrip_expiry {α : Type} (st : CacheState α) (p : String)
    (d : α) (t0 t1 : Nat) :
    (t1 - t0 < maxAge → (cacheGet (cacheSet st t0 p d true) t1 p).1 = some d) ∧
    (maxAge < t1 - t0 →
      (cacheGet (cacheSet st t0 p d true) t1 p).1 = none ∧
      mapFind (cacheGet (cacheSet st t0 p d true) t1 p).2.memoryCache p = none ∧
      mapFind (cacheGet (cacheSet st t0 p d true) t1 p).2.cacheIndex p = none ∧
      mapFind (cacheGet (cacheSet st t0 p d true) t1 p).2.files p = none) := by
  have hmem : mapFind (cacheSet st t0 p d true).memoryCache p = some ⟨d, t0, p⟩ := by
    simp [cacheSet, generateCacheKey, mapFind_mapSet_self]
  have hidx : mapFind (cacheSet st t0 p d true).cacheIndex p = some ⟨t0, p⟩ := by
    simp [cacheSet, generateCacheKey, mapFind_mapSet_self]
  constructor
  · intro hfresh
    have hval : isValid t0 t1 = true := by simpa [isValid] using hfresh
    simp [cacheGet, generateCacheKey, hmem, hval]
  · intro hexp
    have hval : isValid t0 t1 = false := by
      simp only [isValid, decide_eq_false_iff_not, not_lt]
      omega
    simp [cacheGet, cacheGetDisk, hmem, hidx, hval, generateCacheKey,
      mapFind_mapDelete_self]

/-- Witness for C5 at a concrete instant on each side of the window. -/
theorem cache_roundtrip_expiry_witness :
    ((cacheGet (cacheSet ({} : CacheState Nat) 0 "p" 7 true) 1 "p").1 = some 7) ∧
    ((cacheGet (cacheSet ({} : CacheState Nat) 0 "p" 7 true) 604800001 "p").1 = none) :=
  ⟨(cache_roundtrip_expiry {} "p" 7 0 1).1 (by decide),
   ((cache_roundtrip_expiry {} "p" 7 0 604800001).2 (by decide)).1⟩

/-! ## Truthiness of extracted identifiers -/

theorem ne_empty_of_truthyStr {s : String} (h : truthyStr (some s) = true) :
    s ≠ "" := by
  intro hs
  subst hs
  exact absurd h (by decide)

theorem isEmpty_false_of_ne_empty {s : String} (h : s ≠ "") :
    s.isEmpty = false := by
  cases hh : s.isEmpty
  · rfl
  · exact absurd ((String.isEmpty_iff s).mp hh) h

theorem truthyStr_of_ne_empty {s : String} (h : s ≠ "") :
    truthyStr (some s) = true := by
  simp [truthyStr, isEmpty_false_of_ne_empty h]

theorem stringMk_ne_empty (c : Char) (l : List Char) : String.mk (c :: l) ≠ "" := by
  intro h
  have h2 : c :: l = [] := congrArg String.data h
  exact List.cons_ne_nil c l h2

theorem doiOrgHere_ne_empty {l : List Char} {cap : String}
    (h : doiOrgHere l = some cap) : cap ≠ "" := by
  unfold doiOrgHere at h
  split at h
  · split at h
    · cases h
      exact stringMk_ne_empty _ _
    · exact absurd h (by simp)
  · exact absurd h (by simp)

theorem doiOrgMatch_ne_empty {l : List Char} {cap : String}
    (h : doiOrgMatch l = some cap) : cap ≠ "" := by
  induction l with
  | nil => simp [doiOrgMatch] at h
  | cons c rest ih =>
    unfold doiOrgMatch at h
    split at h
    · cases h
      exact doiOrgHere_ne_empty ‹_›
    · exact ih h

theorem arxivHere_ne_empty {l : List Char} {cap : String}
    (h : arxivHere l = some cap) : cap ≠ "" := by
  unfold arxivHere at h
  split at h
  · split at h
    · rename_i hd4
      split at h
      · split at h
        · cases h
          cases htd : takeDigits 4 (arxivTail l) with
          | nil => rw [htd] at hd4; simp at hd4
          | cons c cs => exact stringMk_ne_empty _ _
        · exact absurd h (by simp)
      · exact absurd h (by simp)
    · exact absurd h (by simp)
  · exact absurd h (by simp)

theorem arxivMatch_ne_empty {l : List Char} {cap : String}
    (h : arxivMatch l = some cap) : cap ≠ "" := by
  induction l with
  | nil => simp [arxivMatch] at h
  | cons c rest ih =>
    unfold arxivMatch at h
    split at h
    · cases h
      exact arxivHere_ne_empty ‹_›
    · exact ih h

theorem extractIdentifiers_doi_ne_empty {b : BibEntry} {d : String}
    (h : (extractIdentifiers b).doi = some d) : d ≠ "" := by
  simp only [extractIdentifiers] at h
  have hdoi0 : ∀ hh : (if truthyStr b.doi then b.doi else none) = some d, d ≠ "" := by
    intro hh
    split at hh
    · rename_i ht
      rw [hh] at ht
      exact ne_empty_of_truthyStr ht
    · exact absurd hh (by simp)
  split at h
  · split at h
    · cases h
      exact doiOrgMatch_ne_empty ‹_›
    · exact hdoi0 h
  · exact hdoi0 h

theorem extractIdentifiers_arxiv_ne_empty {b : BibEntry} {a : String}
    (h : (extractIdentifiers b).arxiv = some a) : a ≠ "" := by
  simp only [extractIdentifiers] at h
  have harxiv0 : ∀ hh : (if truthyStr b.eprint then b.eprint else none) = some a, a ≠ "" := by
    intro hh
    split at hh
    · rename_i ht
      rw [hh] at ht
      exact ne_empty_of_truthyStr ht
    · exact absurd hh (by simp)
  split at h
  · split at h
    · cases h
      exact arxivMatch_ne_empty ‹_›
    · exact harxiv0 h
  · exact harxiv0 h

/-! ## C7: findPaper resolution order -/

/-- A record carrying both a DOI and an arXiv eprint. -/
def c7Bib : BibEntry := { key := "a", doi := some "10.1/d", eprint := some "1234.5678" }

/-- An oracle whose DOI lookups all fail and whose arXiv lookup succeeds. -/
def c7Oracle : SSOracle Nat :=
  { byDOI := fun _ => none, byArxiv := fun _ => some 1,
    search := fun _ => [], byId := fun _ => none }

/-- C7 (counterexample): `c7Bib` carries a DOI identifier, yet when the DOI
lookup returns no paper, `findPaper` resolves the record through the arXiv
lookup — the claim's "arXiv lookup is used only when no DOI identifier is
present" fails. -/
theorem findPaper_doi_present_resolved_by_arxiv :
    (extractIdentifiers c7Bib).doi = some "10.1/d" ∧
    c7Oracle.byDOI "10.1/d" = none ∧
    (extractIdentifiers c7Bib).arxiv = some "1234.5678" ∧
    c7Oracle.byArxiv "1234.5678" = some 1 ∧
    findPaper c7Oracle c7Bib = some 1 :=
  ⟨rfl, rfl, rfl, rfl, rfl⟩

/-- C7 (amended): `findPaper` tries the strategies in order with fall-through
on failure: a successful DOI lookup wins when a DOI identifier is present;
the arXiv lookup answers when an arXiv identifier is present and every DOI
lookup attempt returned no paper; and the title-search step is reached
exactly when neither of the earlier strategies produced a paper. -/
theorem findPaper_resolution_order {α : Type} (o : SSOracle α) (b : BibEntry) :
    (∀ d p, (extractIdentifiers b).doi = some d → o.byDOI d = some p →
      findPaper o b = some p) ∧
    (∀ a p, (extractIdentifiers b).arxiv = some a →
      (∀ d, (extractIdentifiers b).doi = some d → o.byDOI d = none) →
      o.byArxiv a = some p → findPaper o b = some p) ∧
    ((∀ d, (extractIdentifiers b).doi = some d → o.byDOI d = none) →
      (∀ a, (extractIdentifiers b).arxiv = some a → o.byArxiv a = none) →
      findPaper o b = titleSearchStep o (extractIdentifiers b).title) := by
  refine ⟨?_, ?_, ?_⟩
  · intro d p hd hp
    simp [findPaper, hd, truthyStr_of_ne_empty (extractIdentifiers_doi_ne_empty hd), hp]
  · intro a p ha hdoi hp
    cases hdd : (extractIdentifiers b).doi with
    | none =>
      simp [findPaper, hdd, ha, truthyStr,
        isEmpty_false_of_ne_empty (extractIdentifiers_arxiv_ne_empty ha), hp]
    | some d =>
      simp [findPaper, hdd, ha, hdoi d hdd, truthyStr,
        isEmpty_false_of_ne_empty (extractIdentifiers_doi_ne_empty hdd),
        isEmpty_false_of_ne_empty (extractIdentifiers_arxiv_ne_empty ha), hp]
  · intro hdoi harxiv
    cases hdd : (extractIdentifiers b).doi with
    | none =>
      cases haa : (extractIdentifiers b).arxiv with
      | none => simp [findPaper, hdd, haa, truthyStr]
      | some a =>
        simp [findPaper, hdd, haa, harxiv a haa, truthyStr,
          isEmpty_false_of_ne_empty (extractIdentifiers_arxiv_ne_empty haa)]
    | some d =>
      cases haa : (extractIdentifiers b).arxiv with
      | none =>
        simp [findPaper, hdd, haa, hdoi d hdd, truthyStr,
          isEmpty_false_of_ne_empty (extractIdentifiers_doi_ne_empty hdd)]
      | some a =>
        simp [findPaper, hdd, haa, hdoi d hdd, harxiv a haa, truthyStr,
          isEmpty_false_of_ne_empty (extractIdentifiers_doi_ne_empty hdd),
          isEmpty_false_of_ne_empty (extractIdentifiers_arxiv_ne_empty haa)]

/-- A record with a DOI whose lookup succeeds. -/
def c7wBib : BibEntry := { key := "w", doi := some "10.1/w" }

/-- An oracle answering every DOI lookup with paper `5`. -/
def c7wOracle : SSOracle Nat :=
  { byDOI := fun _ => some 5, byArxiv := fun _ => none,
    search := fun _ => [], byId := fun _ => none }

/-- Witness for C7's amended theorem: a successful DOI lookup wins, the
arXiv fall-through answers `c7Oracle`/`c7Bib`, and a record with neither
lookup succeeding lands in the title-search step. -/
theorem findPaper_resolution_order_witness :
    findPaper c7wOracle c7wBib = some 5 ∧
    findPaper c7Oracle c7Bib = some 1 ∧
    findPaper c7Oracle c7wBib = titleSearchStep c7Oracle (extractIdentifiers c7wBib).title :=
  ⟨(findPaper_resolution_order c7wOracle c7wBib).1 "10.1/w" 5 rfl rfl,
   (findPaper_resolution_order c7Oracle c7Bib).2.1 "1234.5678" 1 rfl
     (fun d _ => rfl) rfl,
   (findPaper_resolution_order c7Oracle c7wBib).2.2
     (fun d _ => rfl)
     (fun a ha => by simp [c7wBib, extractIdentifiers, truthyStr] at ha)⟩

/-! ## C8: 429 retry with exponential backoff; other statuses terminal -/

/-- Auxiliary recursion lemma: from any `retryCount`, against a server that
always answers 429, `makeRequestGo` sleeps
`min(baseBackoffTime * 2 ^ (retryCount + i), maxBackoffTime)` for each of its
`gas` retries and then rejects. -/
theorem makeRequestGo_all429 {α : Type} (resp : Nat → HttpResp α) (path : String)
    (now : Nat) (st : CacheState (Option α))
    (hmem : mapFind st.memoryCache path = none)
    (hidx : mapFind st.cacheIndex path = none)
    (h429 : ∀ k, resp k = .tooManyRequests) :
    ∀ gas rc, makeRequestGo resp path now gas rc st =
      (.error ("Rate limit exceeded after " ++ toString maxRetries ++ " retries"), st,
       (List.range gas).map (fun i => min (baseBackoffTime * 2 ^ (rc + i)) maxBackoffTime)) := by
  have hq : cacheGet st now path = (none, st) := by
    simp [cacheGet, cacheGetDisk, generateCacheKey, hmem, hidx]
  intro gas
  induction gas with
  | zero => intro rc; simp [makeRequestGo, hq, h429 rc]
  | succ g ih =>
    intro rc
    rw [makeRequestGo]
    simp only [hq, Option.join, Option.none_bind, h429 rc, ih (rc + 1)]
    rw [List.range_succ_eq_map, List.map_cons, List.map_map]
    congr 1
    congr 1
    congr 1
    apply List.map_congr_left
    intro i _
    simp only [Function.comp_apply]
    rw [show rc + 1 + i = rc + (i + 1) from by omega]

/-- C8: on HTTP 429 `makeRequest` retries with backoff
`min(baseBackoffTime * 2 ^ k, maxBackoffTime)` for retry number `k`, up to
`maxRetries = 4` retries, then rejects with a terminal error; any other
non-200, non-404 status rejects immediately with no retry and no sleep. -/
theorem makeRequest_retry_backoff {α : Type} (resp : Nat → HttpResp α)
    (path : String) (now : Nat) (st : CacheState (Option α))
    (hmem : mapFind st.memoryCache path = none)
    (hidx : mapFind st.cacheIndex path = none) :
    maxRetries = 4 ∧ baseBackoffTime = 3000 ∧ maxBackoffTime = 30000 ∧
    ((∀ k, resp k = .tooManyRequests) →
      makeRequest resp path now st 0 =
        (.error ("Rate limit exceeded after " ++ toString maxRetries ++ " retries"), st,
         (List.range maxRetries).map (fun k => min (baseBackoffTime * 2 ^ k) maxBackoffTime))) ∧
    (∀ c body, resp 0 = .otherStatus c body →
      makeRequest resp path now st 0 =
        (.error ("HTTP " ++ toString c ++ ": " ++ body), st, [])) := by
  have hq : cacheGet st now path = (none, st) := by
    simp [cacheGet, cacheGetDisk, generateCacheKey, hmem, hidx]
  refine ⟨rfl, rfl, rfl, ?_, ?_⟩
  · intro h429
    rw [makeRequest, show maxRetries - 0 = maxRetries from rfl,
      makeRequestGo_all429 resp path now st hmem hidx h429 maxRetries 0]
    simp
  · intro c body hc
    rw [makeRequest]
    rw [show maxRetries - 0 = 4 from rfl, makeRequestGo]
    simp [hq, hc]

/-- A server that always answers 429. -/
def c8Resp : Nat → HttpResp Nat := fun _ => HttpResp.tooManyRequests

/-- A server that answers HTTP 500 on the first attempt. -/
def c8OtherResp : Nat → HttpResp Nat := fun _ => HttpResp.otherStatus 500 "boom"

/-- Witness for C8 on the empty cache: four sleeps of 3000, 6000, 12000 and
24000 ms and a terminal rate-limit error; an immediate rejection on a 500. -/
theorem makeRequest_retry_backoff_witness :
    makeRequest c8Resp "p" 0 {} 0 =
      (.error ("Rate limit exceeded after " ++ toString maxRetries ++ " retries"), {},
       (List.range maxRetries).map (fun k => min (baseBackoffTime * 2 ^ k) maxBackoffTime)) ∧
    makeRequest c8OtherResp "p" 0 {} 0 =
      (.error ("HTTP " ++ toString 500 ++ ": " ++ "boom"), {}, []) :=
  ⟨(makeRequest_retry_backoff c8Resp "p" 0 {} rfl rfl).2.2.2.1 (fun _ => rfl),
   (makeRequest_retry_backoff c8OtherResp "p" 0 {} rfl rfl).2.2.2.2 500 "boom" rfl⟩

/-! ## C6: minCitations filtering and descending sort -/

theorem mem_insertByCountDesc {x a : FreqRec} {l : List FreqRec} :
    a ∈ insertByCountDesc x l ↔ a = x ∨ a ∈ l := by
  induction l with
  | nil => simp [insertByCountDesc]
  | cons y ys ih =>
    unfold insertByCountDesc
    by_cases h : y.count < x.count
    · simp [h]
    · simp [h, ih]
      tauto

theorem pairwise_insertByCountDesc {x : FreqRec} {l : List FreqRec}
    (h : l.Pairwise (fun a b => b.count ≤ a.count)) :
    (insertByCountDesc x l).Pairwise (fun a b => b.count ≤ a.count) := by
  induction l with
  | nil => simp [insertByCountDesc]
  | cons y ys ih =>
    unfold insertByCountDesc
    rcases List.pairwise_cons.mp h with ⟨hy, hys⟩
    by_cases hc : y.count < x.count
    · rw [if_pos hc]
      refine List.pairwise_cons.mpr ⟨?_, h⟩
      intro b hb
      rcases List.mem_cons.mp hb with rfl | hb
      · exact Nat.le_of_lt hc
      · exact Nat.le_trans (hy b hb) (Nat.le_of_lt hc)
    · rw [if_neg hc]
      refine List.pairwise_cons.mpr ⟨?_, ih hys⟩
      intro b hb
      rcases mem_insertByCountDesc.mp hb with rfl | hb
      · exact Nat.le_of_not_lt hc
      · exact hy b hb

theorem pairwise_sortByCountDesc (l : List FreqRec) :
    (sortByCountDesc l).Pairwise (fun a b => b.count ≤ a.count) := by
  induction l with
  | nil => simp [sortByCountDesc]
  | cons x xs ih => exact pairwise_insertByCountDesc ih

theorem mem_sortByCountDesc {a : FreqRec} {l : List FreqRec} :
    a ∈ sortByCountDesc l ↔ a ∈ l := by
  induction l with
  | nil => simp [sortByCountDesc]
  | cons x xs ih =>
    unfold sortByCountDesc
    rw [mem_insertByCountDesc, ih, List.mem_cons]

/-- C6: every Reference Frequency Record in `analyzeGaps`'s output has
`count ≥ minCitations`, and the output is sorted by descending count. -/
theorem analyzeGaps_threshold_sorted (usedCitations : List BibEntry)
    (referencesMap : ReferencesMap) (minCitations : Nat) :
    (∀ g ∈ analyzeGaps usedCitations referencesMap minCitations,
      minCitations ≤ g.count) ∧
    (analyzeGaps usedCitations referencesMap minCitations).Pairwise
      (fun a b => b.count ≤ a.count) := by
  constructor
  · intro g hg
    rw [analyzeGaps, mem_sortByCountDesc] at hg
    rcases List.mem_map.mp hg with ⟨p, hp, rfl⟩
    have := (List.mem_filter.mp hp).2
    simpa using this
  · exact pairwise_sortByCountDesc _

/-- A reference cited by two sources, for the C6 witness. -/
def c6Ref : SSRef :=
  { title := some "X", year := some 2020, externalIds := some { DOI := some "10.1/x" } }

/-- A references map with two sources each citing `c6Ref` once. -/
def c6Rm : ReferencesMap := [("A", [c6Ref]), ("B", [c6Ref])]

/-- The Reference Frequency Record `analyzeGaps` produces for `c6Ref`. -/
def c6Rec : FreqRec := { count := 2, reference := c6Ref, citedBy := ["A", "B"] }

/-- Witness for C6 at a concrete two-source map with `minCitations = 2`. -/
theorem analyzeGaps_threshold_sorted_witness :
    2 ≤ c6Rec.count ∧
    (analyzeGaps [] c6Rm 2).Pairwise (fun a b => b.count ≤ a.count) :=
  ⟨(analyzeGaps_threshold_sorted [] c6Rm 2).1 c6Rec (by decide),
   (analyzeGaps_threshold_sorted [] c6Rm 2).2⟩

/-! ## C1: DOI matching against the bibliography -/

theorem indexCitation_byDOI (idx : ExistingIndex) (c : BibEntry) :
    (indexCitation idx c).byDOI =
      (if truthyStr (extractIdentifiers c).doi then
        mapSet idx.byDOI (jsToLower ((extractIdentifiers c).doi.getD "")) c
      else idx.byDOI) := by
  unfold indexCitation
  by_cases h1 : truthyStr (extractIdentifiers c).doi <;>
    by_cases h2 : truthyStr (extractIdentifiers c).isbn <;>
    by_cases h3 : (!(extractIdentifiers c).normalizedTitle.isEmpty) = true <;>
    by_cases h4 : truthyStr (extractIdentifiers c).year <;>
    simp [h1, h2, h3, h4]

theorem foldl_indexCitation_byDOI (l : List BibEntry) (idx0 : ExistingIndex)
    (k : String)
    (h : mapHas idx0.byDOI k = true ∨
      ∃ b ∈ l, ∃ d, (extractIdentifiers b).doi = some d ∧ jsToLower d = k) :
    mapHas (l.foldl indexCitation idx0).byDOI k = true := by
  induction l generalizing idx0 with
  | nil =>
    rcases h with h | ⟨b, hb, _⟩
    · exact h
    · simp at hb
  | cons c rest ih =>
    rw [List.foldl_cons]
    apply ih
    rcases h with h | ⟨b, hb, d, hd, hk⟩
    · left
      rw [indexCitation_byDOI]
      split
      · rw [mapHas_mapSet]
        simp [h]
      · exact h
    · rcases List.mem_cons.mp hb with rfl | hb'
      · left
        rw [indexCitation_byDOI, hd,
          if_pos (truthyStr_of_ne_empty (extractIdentifiers_doi_ne_empty hd))]
        simp [mapHas_mapSet, hk]
      · exact Or.inr ⟨b, hb', d, hd, hk⟩

theorem buildIndex_byDOI_has {used : List BibEntry} {b : BibEntry} {d : String}
    (hb : b ∈ used) (hd : (extractIdentifiers b).doi = some d) :
    mapHas (buildExistingPapersIndex used).byDOI (jsToLower d) = true :=
  foldl_indexCitation_byDOI used {} _ (Or.inr ⟨b, hb, d, hd, rfl⟩)

/-- C1 (amended): a reference whose `externalIds.DOI` matches, case
insensitively, the DOI of some used bibliography record is classified as
already in the bibliography, regardless of any title or year differences;
`analyzeGaps`'s per-reference step then skips it — it contributes to no
frequency record, hence to no gap, at any `minCitations`. -/
theorem externalIds_doi_match_excluded (used : List BibEntry) (b : BibEntry)
    (ref : SSRef) (d e : String) (hb : b ∈ used)
    (hbd : (extractIdentifiers b).doi = some d)
    (hr : extractDOIFromSemanticScholar ref = some e)
    (he : jsToLower e = jsToLower d) :
    isPaperInBibliography ref (buildExistingPapersIndex used) = true ∧
    (∀ citationKey freq,
      processRef (buildExistingPapersIndex used) citationKey freq ref = freq) := by
  have h1 : isPaperInBibliography ref (buildExistingPapersIndex used) = true := by
    have hk := buildIndex_byDOI_has hb hbd
    unfold isPaperInBibliography
    rw [hr]
    simp [he, hk]
  refine ⟨h1, ?_⟩
  intro citationKey freq
  unfold processRef
  rw [h1]
  simp

/-- A used bibliography record whose `doi` field is `10.1/X`. -/
def c1Bib : BibEntry :=
  { key := "b", title := some "t b", year := some "2001", doi := some "10.1/X" }

/-- An incoming reference carrying the same DOI (lowercased) only in its own
`doi` field, with a title unrelated to `c1Bib`'s. -/
def c1Ref : SSRef :=
  { title := some "completely different", year := some 1999, doi := some "10.1/x" }

/-- C1 (counterexample): the bibliography holds the DOI `10.1/X` and `c1Ref`
carries the matching `10.1/x` in its own `doi` field, yet
`isPaperInBibliography` classifies it as NOT in the bibliography:
the DOI check reads only `externalIds.DOI` and ignores the `doi` field. -/
theorem doi_field_only_not_excluded :
    c1Ref.doi = some "10.1/x" ∧
    c1Ref.externalIds = none ∧
    (extractIdentifiers c1Bib).doi = some "10.1/X" ∧
    jsToLower "10.1/x" = jsToLower "10.1/X" ∧
    isPaperInBibliography c1Ref (buildExistingPapersIndex [c1Bib]) = false :=
  ⟨rfl, rfl, rfl, rfl, rfl⟩

/-- The same reference with the DOI in `externalIds.DOI`, for the witness. -/
def c1RefExt : SSRef :=
  { title := some "completely different", year := some 1999,
    externalIds := some { DOI := some "10.1/x" } }

/-- Witness for C1's amended theorem on `c1Bib` and `c1RefExt`. -/
theorem externalIds_doi_match_excluded_witness :
    isPaperInBibliography c1RefExt (buildExistingPapersIndex [c1Bib]) = true ∧
    processRef (buildExistingPapersIndex [c1Bib]) "A" [] c1RefExt = [] :=
  ⟨(externalIds_doi_match_excluded [c1Bib] c1Bib c1RefExt "10.1/X" "10.1/x"
      (by simp) rfl rfl rfl).1,
   (externalIds_doi_match_excluded [c1Bib] c1Bib c1RefExt "10.1/X" "10.1/x"
      (by simp) rfl rfl rfl).2 "A" []⟩

/-! ## C4: title matching against the bibliography -/

theorem indexCitation_byNormalizedTitle (idx : ExistingIndex) (c : BibEntry) :
    (indexCitation idx c).byNormalizedTitle =
      (if (!(extractIdentifiers c).normalizedTitle.isEmpty) = true then
        mapSet idx.byNormalizedTitle (extractIdentifiers c).normalizedTitle c
      else idx.byNormalizedTitle) := by
  unfold indexCitation
  by_cases h1 : truthyStr (extractIdentifiers c).doi <;>
    by_cases h2 : truthyStr (extractIdentifiers c).isbn <;>
    by_cases h3 : (!(extractIdentifiers c).normalizedTitle.isEmpty) = true <;>
    by_cases h4 : truthyStr (extractIdentifiers c).year <;>
    simp [h1, h2, h3, h4]

theorem foldl_indexCitation_byNormalizedTitle (l : List BibEntry)
    (idx0 : ExistingIndex) (k : String)
    (h : mapHas idx0.byNormalizedTitle k = true ∨
      ∃ b ∈ l, (extractIdentifiers b).normalizedTitle = k ∧ k.isEmpty = false) :
    mapHas (l.foldl indexCitation idx0).byNormalizedTitle k = true := by
  induction l generalizing idx0 with
  | nil =>
    rcases h with h | ⟨b, hb, _⟩
    · exact h
    · simp at hb
  | cons c rest ih =>
    rw [List.foldl_cons]
    apply ih
    rcases h with h | ⟨b, hb, hk, hke⟩
    · left
      rw [indexCitation_byNormalizedTitle]
      split
      · rw [mapHas_mapSet]
        simp [h]
      · exact h
    · rcases List.mem_cons.mp hb with rfl | hb'
      · left
        rw [indexCitation_byNormalizedTitle, hk, if_pos (by simp [hke])]
        simp [mapHas_mapSet]
      · exact Or.inr ⟨b, hb', hk, hke⟩

theorem buildIndex_byNormalizedTitle_has {used : List BibEntry} {b : BibEntry}
    {k : String} (hb : b ∈ used)
    (hk : (extractIdentifiers b).normalizedTitle = k) (hke : k.isEmpty = false) :
    mapHas (buildExistingPapersIndex used).byNormalizedTitle k = true :=
  foldl_indexCitation_byNormalizedTitle used {} k (Or.inr ⟨b, hb, hk, hke⟩)

/-- C4 (amended): a reference whose normalized title equals the normalized
title of some used bibliography record is classified as already in the
bibliography — whatever its year and whether or not it carries a DOI — and
`analyzeGaps`'s per-reference step skips it.  In particular a
(normalized title, year) match is excluded, but so is a reference that
differs from an existing record only in year: the normalized-title-only
fallback catches it. -/
theorem normalized_title_match_excluded (used : List BibEntry) (b : BibEntry)
    (ref : SSRef) (t : String) (hb : b ∈ used) (ht : ref.title = some t)
    (htt : t ≠ "")
    (hnt : normalizeTitle t = (extractIdentifiers b).normalizedTitle)
    (hne : (extractIdentifiers b).normalizedTitle.isEmpty = false) :
    isPaperInBibliography ref (buildExistingPapersIndex used) = true ∧
    (∀ citationKey freq,
      processRef (buildExistingPapersIndex used) citationKey freq ref = freq) := by
  have hk : mapHas (buildExistingPapersIndex used).byNormalizedTitle
      (normalizeTitle t) = true := by
    rw [hnt]
    exact buildIndex_byNormalizedTitle_has hb rfl hne
  have h1 : isPaperInBibliography ref (buildExistingPapersIndex used) = true := by
    unfold isPaperInBibliography
    rw [ht]
    simp [truthyStr_of_ne_empty htt, hk]
  refine ⟨h1, ?_⟩
  intro citationKey freq
  unfold processRef
  rw [h1]
  simp

/-- A used bibliography record with title `Some Title` and year `2020`. -/
def c4Bib : BibEntry := { key := "b", title := some "Some Title", year := some "2020" }

/-- A DOI-less reference with the same title but year `2019`. -/
def c4Ref : SSRef := { title := some "Some Title", year := some 2019 }

/-- C4 (counterexample): `c4Ref` lacks a DOI and differs from the
bibliography record `c4Bib` only in year — the (normalized title, year) key
`some title|2019` is NOT in the title-and-year map — yet
`isPaperInBibliography` still classifies it as in the bibliography, through
the normalized-title-only fallback; the claim says it is NOT excluded. -/
theorem year_mismatch_still_excluded :
    c4Ref.doi = none ∧ c4Ref.externalIds = none ∧
    c4Ref.title = c4Bib.title ∧
    c4Ref.year = some 2019 ∧ c4Bib.year = some "2020" ∧
    mapHas (buildExistingPapersIndex [c4Bib]).byTitleAndYear "some title|2019" = false ∧
    isPaperInBibliography c4Ref (buildExistingPapersIndex [c4Bib]) = true :=
  ⟨rfl, rfl, rfl, rfl, rfl, rfl, rfl⟩

/-- Witness for C4's amended theorem on `c4Bib` and `c4Ref`. -/
theorem normalized_title_match_excluded_witness :
    isPaperInBibliography c4Ref (buildExistingPapersIndex [c4Bib]) = true ∧
    processRef (buildExistingPapersIndex [c4Bib]) "A" [] c4Ref = [] :=
  ⟨(normalized_title_match_excluded [c4Bib] c4Bib c4Ref "Some Title"
      (by simp) rfl (by decide) (by decide) (by decide)).1,
   (normalized_title_match_excluded [c4Bib] c4Bib c4Ref "Some Title"
      (by simp) rfl (by decide) (by decide) (by decide)).2 "A" []⟩

/-! ## C9: consistency of the hot tier with the durable tier -/

/-- The keys of an association list are pairwise distinct (true of every JS
`Map` and of a directory of per-key files). -/
def keysNodup {β : Type} (m : List (String × β)) : Prop :=
  (m.map Prod.fst).Nodup

theorem keysNodup_nil {β : Type} : keysNodup ([] : List (String × β)) := by
  simp [keysNodup]

theorem keysNodup_mapSet {β : Type} {m : List (String × β)} (h : keysNodup m)
    (k : String) (v : β) : keysNodup (mapSet m k v) := by
  unfold mapSet
  by_cases hh : mapHas m k
  · rw [if_pos hh]
    have hkeys : (m.map (fun p => if p.1 = k then (k, v) else p)).map Prod.fst =
        m.map Prod.fst := by
      rw [List.map_map]
      apply List.map_congr_left
      intro p _
      by_cases hp : p.1 = k <;> simp [hp]
    unfold keysNodup
    rw [hkeys]
    exact h
  · rw [if_neg hh]
    unfold keysNodup
    rw [List.map_append, List.nodup_append]
    refine ⟨h, by simp, ?_⟩
    intro a ha hak
    simp only [List.map_cons, List.map_nil, List.mem_singleton] at hak
    subst hak
    rcases List.mem_map.mp ha with ⟨q, hq, hqk⟩
    exact hh (mapHas_iff_exists.mpr ⟨q, hq, hqk⟩)

theorem keysNodup_filter {β : Type} {m : List (String × β)}
    (q : String × β → Bool) (h : keysNodup m) : keysNodup (m.filter q) :=
  List.Nodup.sublist ((m.filter_sublist).map Prod.fst) h

theorem mapFind_of_mem_nodup {β : Type} {m : List (String × β)}
    (hnd : keysNodup m) {k : String} {v : β} (hm : (k, v) ∈ m) :
    mapFind m k = some v := by
  induction m with
  | nil => cases hm
  | cons p rest ih =>
    have hnd' : keysNodup rest := (List.nodup_cons.mp hnd).2
    rcases List.mem_cons.mp hm with rfl | hm'
    · unfold mapFind
      rw [List.find?_cons_of_pos _ (by simp)]
      rfl
    · have hk : k ∈ rest.map Prod.fst := List.mem_map.mpr ⟨(k, v), hm', rfl⟩
      have hne : ¬(p.1 = k) := fun hh => (List.nodup_cons.mp hnd).1 (hh ▸ hk)
      unfold mapFind
      rw [List.find?_cons_of_neg _ (by simpa using hne)]
      exact ih hnd' hm'

theorem not_mem_of_mapFind_none {β : Type} {m : List (String × β)} {k : String}
    (h : mapFind m k = none) (v : β) : (k, v) ∉ m := by
  intro hm
  unfold mapFind at h
  rw [Option.map_eq_none', List.find?_eq_none] at h
  exact absurd (by simp : decide ((k, v).1 = k) = true) (h (k, v) hm)

theorem mem_value_eq_of_nodup {β : Type} {m : List (String × β)}
    (hnd : keysNodup m) {k : String} {a b : β} (ha : (k, a) ∈ m)
    (hb : (k, b) ∈ m) : a = b := by
  have h1 := mapFind_of_mem_nodup hnd ha
  have h2 := mapFind_of_mem_nodup hnd hb
  rw [h1] at h2
  exact Option.some.inj h2

/-- The in-process hot tier is a subset of, and consistent with, the durable
tier: every memory entry is recorded in the index with the same timestamp and
request path and stored in its payload file verbatim, and every index entry
has a payload file with matching timestamp and request path.  All three key
sets are duplicate-free. -/
def tiersConsistent {α : Type} (st : CacheState α) : Prop :=
  keysNodup st.memoryCache ∧ keysNodup st.cacheIndex ∧ keysNodup st.files ∧
  (∀ k e, (k, e) ∈ st.memoryCache →
    (k, IndexInfo.mk e.timestamp e.requestPath) ∈ st.cacheIndex ∧
    (k, e) ∈ st.files) ∧
  (∀ k info, (k, info) ∈ st.cacheIndex →
    ∃ e, (k, e) ∈ st.files ∧ e.timestamp = info.timestamp ∧
      e.requestPath = info.requestPath)

theorem tiersConsistent_cacheSet {α : Type} {st : CacheState α}
    (h : tiersConsistent st) (now : Nat) (p : String) (d : α) :
    tiersConsistent (cacheSet st now p d true) := by
  obtain ⟨hn1, hn2, hn3, hmi, hif⟩ := h
  unfold cacheSet generateCacheKey
  simp only [if_true]
  refine ⟨keysNodup_mapSet hn1 _ _, keysNodup_mapSet hn2 _ _,
    keysNodup_mapSet hn3 _ _, ?_, ?_⟩
  · intro k e hm
    rcases mem_mapSet_iff.mp hm with heq | ⟨hm', hne⟩
    · obtain ⟨rfl, rfl⟩ := Prod.mk.inj heq
      exact ⟨mem_mapSet_iff.mpr (Or.inl rfl), mem_mapSet_iff.mpr (Or.inl rfl)⟩
    · obtain ⟨hidx, hfile⟩ := hmi k e hm'
      exact ⟨mem_mapSet_iff.mpr (Or.inr ⟨hidx, hne⟩),
        mem_mapSet_iff.mpr (Or.inr ⟨hfile, hne⟩)⟩
  · intro k info hm
    rcases mem_mapSet_iff.mp hm with heq | ⟨hm', hne⟩
    · obtain ⟨rfl, rfl⟩ := Prod.mk.inj heq
      exact ⟨_, mem_mapSet_iff.mpr (Or.inl rfl), rfl, rfl⟩
    · obtain ⟨e, he, hts, hrp⟩ := hif k info hm'
      exact ⟨e, mem_mapSet_iff.mpr (Or.inr ⟨he, hne⟩), hts, hrp⟩

theorem tiersConsistent_cacheGetDisk {α : Type} {st : CacheState α}
    (h : tiersConsistent st) (now : Nat) (p : String)
    (hmem : mapFind st.memoryCache (generateCacheKey p) = none) :
    tiersConsistent (cacheGetDisk st now p).2 := by
  obtain ⟨hn1, hn2, hn3, hmi, hif⟩ := h
  simp only [generateCacheKey] at hmem
  simp only [cacheGetDisk, generateCacheKey]
  cases hidx : mapFind st.cacheIndex p with
  | none => exact ⟨hn1, hn2, hn3, hmi, hif⟩
  | some info =>
    simp only []
    by_cases hval : isValid info.timestamp now
    · rw [if_pos hval]
      cases hfile : mapFind st.files p with
      | some cached =>
        simp only []
        refine ⟨keysNodup_mapSet hn1 _ _, hn2, hn3, ?_, hif⟩
        intro k e hm
        rcases mem_mapSet_iff.mp hm with heq | ⟨hm', _⟩
        · obtain ⟨rfl, rfl⟩ := Prod.mk.inj heq
          refine ⟨?_, mem_of_mapFind hfile⟩
          obtain ⟨e', he', hts, hrp⟩ := hif _ info (mem_of_mapFind hidx)
          have : e' = e := by
            have h1 := mapFind_of_mem_nodup hn3 he'
            rw [hfile] at h1
            exact (Option.some.inj h1).symm
          subst this
          rw [hts, hrp]
          exact mem_of_mapFind hidx
        · exact hmi k e hm'
      | none =>
        simp only []
        refine ⟨hn1, keysNodup_filter _ hn2, hn3, ?_, ?_⟩
        · intro k e hm
          obtain ⟨hidx', hfile'⟩ := hmi k e hm
          have hkp : k ≠ p := by
            rintro rfl
            have h1 := mapFind_of_mem_nodup hn3 hfile'
            rw [hfile] at h1
            cases h1
          exact ⟨List.mem_filter.mpr ⟨hidx', by simpa using hkp⟩, hfile'⟩
        · intro k info' hm
          exact hif k info' (List.mem_filter.mp hm).1
    · rw [if_neg hval]
      simp only []
      refine ⟨hn1, keysNodup_filter _ hn2, keysNodup_filter _ hn3, ?_, ?_⟩
      · intro k e hm
        have hkp : k ≠ p := by
          rintro rfl
          exact not_mem_of_mapFind_none hmem e hm
        obtain ⟨hidx', hfile'⟩ := hmi k e hm
        exact ⟨List.mem_filter.mpr ⟨hidx', by simpa using hkp⟩,
          List.mem_filter.mpr ⟨hfile', by simpa using hkp⟩⟩
      · intro k info' hm
        have hm' := List.mem_filter.mp hm
        have hkp : k ≠ p := by simpa using hm'.2
        obtain ⟨e, he, hts, hrp⟩ := hif k info' hm'.1
        exact ⟨e, List.mem_filter.mpr ⟨he, by simpa using hkp⟩, hts, hrp⟩

theorem tiersConsistent_cacheGet {α : Type} {st : CacheState α}
    (h : tiersConsistent st) (now : Nat) (p : String) :
    tiersConsistent (cacheGet st now p).2 := by
  simp only [cacheGet, generateCacheKey]
  cases hm : mapFind st.memoryCache p with
  | none => exact tiersConsistent_cacheGetDisk h now p hm
  | some cached =>
    simp only []
    by_cases hval : isValid cached.timestamp now
    · rw [if_pos hval]
      exact h
    · rw [if_neg hval]
      obtain ⟨hn1, hn2, hn3, hmi, hif⟩ := h
      exact @tiersConsistent_cacheGetDisk α
        { memoryCache := mapDelete st.memoryCache p,
          cacheIndex := st.cacheIndex, files := st.files }
        ⟨keysNodup_filter _ hn1, hn2, hn3,
          fun k e hmm => hmi k e (List.mem_filter.mp hmm).1, hif⟩ now p
        (by simp [generateCacheKey, mapFind_mapDelete_self])

theorem mapHas_expired_false {idx : List (String × IndexInfo)}
    (hn : keysNodup idx) {now : Nat} {k : String} {info : IndexInfo}
    (hidx : (k, info) ∈ idx) (hval : isValid info.timestamp now = true) :
    mapHas (idx.filter (fun q => !isValid q.2.timestamp now)) k = false := by
  by_contra hc
  rw [Bool.not_eq_false] at hc
  rcases mapHas_iff_exists.mp hc with ⟨⟨q1, q2⟩, hq, hqk⟩
  simp only [] at hqk
  subst hqk
  have hq' := List.mem_filter.mp hq
  have hval2 : isValid q2.timestamp now = false := by simpa using hq'.2
  have heq : q2 = info := mem_value_eq_of_nodup hn hq'.1 hidx
  rw [heq, hval] at hval2
  cases hval2

theorem tiersConsistent_cacheCleanup {α : Type} {st : CacheState α}
    (h : tiersConsistent st) (now : Nat) :
    tiersConsistent (cacheCleanup st now).2 := by
  obtain ⟨hn1, hn2, hn3, hmi, hif⟩ := h
  simp only [cacheCleanup]
  refine ⟨keysNodup_filter _ hn1, keysNodup_filter _ hn2,
    keysNodup_filter _ hn3, ?_, ?_⟩
  · intro k e hm
    have hm' := List.mem_filter.mp hm
    obtain ⟨hidx, hfile⟩ := hmi k e hm'.1
    have hval : isValid e.timestamp now = true := by simpa using hm'.2
    refine ⟨List.mem_filter.mpr ⟨hidx, by simpa using hval⟩,
      List.mem_filter.mpr ⟨hfile, ?_⟩⟩
    have := mapHas_expired_false hn2 hidx hval
    simpa using this
  · intro k info hm
    have hm' := List.mem_filter.mp hm
    have hval : isValid info.timestamp now = true := by simpa using hm'.2
    obtain ⟨e, he, hts, hrp⟩ := hif k info hm'.1
    refine ⟨e, List.mem_filter.mpr ⟨he, ?_⟩, hts, hrp⟩
    have := mapHas_expired_false hn2 hm'.1 hval
    simpa using this

theorem tiersConsistent_cacheClear {α : Type} (st : CacheState α) :
    tiersConsistent (cacheClear st) := by
  refine ⟨keysNodup_nil, keysNodup_nil, keysNodup_nil, ?_, ?_⟩ <;>
    intro k x hm <;> exact absurd hm (List.not_mem_nil _)

/-- C9 (amended): when every durable write succeeds, the hot tier stays a
subset of, and consistent with, the durable tier across `set`, `get`,
`cleanup` and `clear`: every memory entry is in the index with the same
timestamp and request path and in its payload file verbatim.  (A durable
write failure in `set` breaks this — see the counterexample.) -/
theorem tiers_consistency_preserved {α : Type} (st : CacheState α) (now : Nat)
    (p : String) (d : α) (h : tiersConsistent st) :
    tiersConsistent (cacheSet st now p d true) ∧
    tiersConsistent (cacheGet st now p).2 ∧
    tiersConsistent (cacheCleanup st now).2 ∧
    tiersConsistent (cacheClear st) :=
  ⟨tiersConsistent_cacheSet h now p d, tiersConsistent_cacheGet h now p,
   tiersConsistent_cacheCleanup h now, tiersConsistent_cacheClear st⟩

/-- C9 (counterexample): a durable-tier write failure that `set` logs and
swallows leaves the freshly written key in the hot tier only: the memory
cache holds `"p"` while the durable index and the payload files are empty,
so the hot tier is not a subset of the durable tier. -/
theorem set_disk_failure_breaks_subset :
    mapFind (cacheSet ({} : CacheState Nat) 0 "p" 7 false).memoryCache "p" =
      some { data := 7, timestamp := 0, requestPath := "p" } ∧
    (cacheSet ({} : CacheState Nat) 0 "p" 7 false).cacheIndex = [] ∧
    (cacheSet ({} : CacheState Nat) 0 "p" 7 false).files = [] ∧
    ¬ tiersConsistent (cacheSet ({} : CacheState Nat) 0 "p" 7 false) := by
  refine ⟨rfl, rfl, rfl, ?_⟩
  intro h
  have hm : ("p", ({ data := 7, timestamp := 0, requestPath := "p" } : CacheEntry Nat)) ∈
      (cacheSet ({} : CacheState Nat) 0 "p" 7 false).memoryCache := by
    simp [cacheSet, generateCacheKey, mapSet, mapHas]
  exact absurd (h.2.2.2.1 _ _ hm).1 (by simp [cacheSet])

/-- Witness for C9's amended theorem starting from the empty cache state. -/
theorem tiers_consistency_preserved_witness :
    tiersConsistent (cacheSet ({} : CacheState Nat) 0 "p" 7 true) ∧
    tiersConsistent (cacheGet ({} : CacheState Nat) 0 "p").2 ∧
    tiersConsistent (cacheCleanup ({} : CacheState Nat) 0).2 ∧
    tiersConsistent (cacheClear ({} : CacheState Nat)) :=
  tiers_consistency_preserved {} 0 "p" 7
    (by refine ⟨keysNodup_nil, keysNodup_nil, keysNodup_nil, ?_, ?_⟩ <;>
      intro k x hm <;> exact absurd hm (List.not_mem_nil _))

/-! ## C2: characterization of the aggregation counts

The specification functions below are stated from the claim's vocabulary:
how many entries of the incoming reference lists match a Reference Key, and
which sources contribute at least one match. -/

/-- The eligibility test of `analyzeGaps`'s inner loop: a titled reference
not already in the bibliography. -/
def eligibleRef (idx : ExistingIndex) (ref : SSRef) : Bool :=
  truthyStr ref.title && !isPaperInBibliography ref idx

/-- How many entries of one source's reference list are eligible and fall
under Reference Key `key` (repeats counted with multiplicity). -/
def keyOccs (idx : ExistingIndex) (key : String) (refs : List SSRef) : Nat :=
  (refs.filter (fun r => eligibleRef idx r && decide (refKeyOf r = key))).length

/-- Total matching entries for `key` across all sources, with multiplicity. -/
def totalOccs (idx : ExistingIndex) (key : String) (rm : ReferencesMap) : Nat :=
  (rm.map (fun p => keyOccs idx key p.2)).sum

/-- The citation keys of the sources whose reference lists contain at least
one matching entry for `key`, in map order. -/
def citingSources (idx : ExistingIndex) (key : String) (rm : ReferencesMap) :
    List String :=
  (rm.filter (fun p => decide (0 < keyOccs idx key p.2))).map Prod.fst

theorem keyOccs_append (idx : ExistingIndex) (key : String)
    (l₁ l₂ : List SSRef) :
    keyOccs idx key (l₁ ++ l₂) = keyOccs idx key l₁ + keyOccs idx key l₂ := by
  simp [keyOccs, List.filter_append]

theorem keyOccs_nil (idx : ExistingIndex) (key : String) :
    keyOccs idx key [] = 0 := rfl

theorem keyOccs_singleton_pos {idx : ExistingIndex} {key : String} {r : SSRef}
    (he : eligibleRef idx r = true) (hk : refKeyOf r = key) :
    keyOccs idx key [r] = 1 := by
  simp [keyOccs, List.filter, he, hk]

theorem keyOccs_singleton_zero {idx : ExistingIndex} {key : String} {r : SSRef}
    (h : (eligibleRef idx r && decide (refKeyOf r = key)) = false) :
    keyOccs idx key [r] = 0 := by
  simp only [keyOccs, List.filter, h]
  rfl

theorem totalOccs_nil (idx : ExistingIndex) (key : String) :
    totalOccs idx key [] = 0 := rfl

theorem totalOccs_append_singleton (idx : ExistingIndex) (key : String)
    (rm : ReferencesMap) (src : String × List SSRef) :
    totalOccs idx key (rm ++ [src]) =
      totalOccs idx key rm + keyOccs idx key src.2 := by
  simp [totalOccs, List.map_append]

theorem citingSources_nil (idx : ExistingIndex) (key : String) :
    citingSources idx key [] = [] := rfl

theorem citingSources_append_singleton (idx : ExistingIndex) (key : String)
    (rm : ReferencesMap) (src : String × List SSRef) :
    citingSources idx key (rm ++ [src]) =
      citingSources idx key rm ++
        (if 0 < keyOccs idx key src.2 then [src.1] else []) := by
  simp only [citingSources, List.filter_append, List.map_append]
  congr 1
  by_cases h : 0 < keyOccs idx key src.2 <;> simp [List.filter, h]

theorem mem_citingSources {idx : ExistingIndex} {key a : String}
    {rm : ReferencesMap} (h : a ∈ citingSources idx key rm) :
    a ∈ rm.map Prod.fst := by
  rcases List.mem_map.mp h with ⟨p, hp, rfl⟩
  exact List.mem_map.mpr ⟨p, (List.mem_filter.mp hp).1, rfl⟩

theorem citingSources_eq_nil_of_totalOccs_zero {idx : ExistingIndex}
    {key : String} {rm : ReferencesMap} (h : totalOccs idx key rm = 0) :
    citingSources idx key rm = [] := by
  unfold citingSources
  rw [List.map_eq_nil_iff, List.filter_eq_nil_iff]
  intro p hp
  have hz : keyOccs idx key p.2 = 0 := by
    have := (List.sum_eq_zero_iff).mp h (keyOccs idx key p.2)
      (List.mem_map.mpr ⟨p, hp, rfl⟩)
    exact this
  simp [hz]

theorem mapHas_of_mapFind_some {β : Type} {m : List (String × β)} {k : String}
    {v : β} (h : mapFind m k = some v) : mapHas m k = true :=
  mapHas_iff_exists.mpr ⟨(k, v), mem_of_mapFind h, rfl⟩

theorem mapHas_eq_false_of_mapFind_none {β : Type} {m : List (String × β)}
    {k : String} (h : mapFind m k = none) : mapHas m k = false := by
  by_contra hc
  rw [Bool.not_eq_false] at hc
  rcases mapHas_iff_exists.mp hc with ⟨p, hp, hpk⟩
  unfold mapFind at h
  rw [Option.map_eq_none', List.find?_eq_none] at h
  exact absurd (by simpa using hpk) (h p hp)

theorem processRef_not_eligible {idx : ExistingIndex} {ck : String}
    {freq : List (String × FreqRec)} {r : SSRef}
    (h : eligibleRef idx r = false) : processRef idx ck freq r = freq := by
  unfold eligibleRef at h
  rcases Bool.and_eq_false_iff.mp h with h1 | h2
  · simp [processRef, h1]
  · have h2' : isPaperInBibliography r idx = true := by simpa using h2
    by_cases h1 : truthyStr r.title = true <;> simp [processRef, h1, h2']

theorem processRef_eq_new {idx : ExistingIndex} {ck : String}
    {freq : List (String × FreqRec)} {r : SSRef}
    (he : eligibleRef idx r = true)
    (hf : mapFind freq (refKeyOf r) = none) :
    processRef idx ck freq r =
      mapSet (mapSet freq (refKeyOf r) { count := 0, reference := r, citedBy := [] })
        (refKeyOf r) { count := 1, reference := r, citedBy := [ck] } := by
  obtain ⟨h1, h2'⟩ : truthyStr r.title = true ∧ isPaperInBibliography r idx = false := by
    simpa [eligibleRef] using he
  have hhas : mapHas freq (refKeyOf r) = false := mapHas_eq_false_of_mapFind_none hf
  simp [processRef, h1, h2', hhas, mapFind_mapSet_self]

theorem processRef_eq_update {idx : ExistingIndex} {ck : String}
    {freq : List (String × FreqRec)} {r : SSRef} {rec : FreqRec}
    (he : eligibleRef idx r = true)
    (hf : mapFind freq (refKeyOf r) = some rec) :
    processRef idx ck freq r =
      mapSet freq (refKeyOf r)
        (if rec.citedBy.contains ck then
          { count := rec.count + 1, reference := rec.reference,
            citedBy := rec.citedBy }
        else
          { count := rec.count + 1, reference := rec.reference,
            citedBy := rec.citedBy ++ [ck] }) := by
  obtain ⟨h1, h2'⟩ : truthyStr r.title = true ∧ isPaperInBibliography r idx = false := by
    simpa [eligibleRef] using he
  have hhas : mapHas freq (refKeyOf r) = true := mapHas_of_mapFind_some hf
  by_cases hc : rec.citedBy.contains ck = true <;>
    simp [processRef, h1, h2', hhas, hf, hc]

/-- The induction invariant of `analyzeGaps`'s inner loop: `freq` reflects
the totals of the already-processed sources `rm` plus the prefix `done` of
the current source `ck`'s reference list. -/
def innerInv (idx : ExistingIndex) (rm : ReferencesMap) (ck : String)
    (done : List SSRef) (freq : List (String × FreqRec)) : Prop :=
  (∀ k rec, mapFind freq k = some rec →
    refKeyOf rec.reference = k ∧
    rec.count = totalOccs idx k rm + keyOccs idx k done ∧
    rec.citedBy = citingSources idx k rm ++
      (if 0 < keyOccs idx k done then [ck] else [])) ∧
  (∀ k, mapFind freq k = none → totalOccs idx k rm + keyOccs idx k done = 0)

theorem processRef_step (idx : ExistingIndex) (rm : ReferencesMap) (ck : String)
    (hck : ck ∉ rm.map Prod.fst) (done : List SSRef) (r : SSRef)
    (freq : List (String × FreqRec)) (hinv : innerInv idx rm ck done freq) :
    innerInv idx rm ck (done ++ [r]) (processRef idx ck freq r) := by
  by_cases he : eligibleRef idx r = true
  case neg =>
    have he' : eligibleRef idx r = false := by simpa using he
    rw [processRef_not_eligible he']
    have hkeq : ∀ k, keyOccs idx k (done ++ [r]) = keyOccs idx k done := by
      intro k
      rw [keyOccs_append, keyOccs_singleton_zero (by simp [he']), Nat.add_zero]
    exact ⟨fun k rec hf => by rw [hkeq k]; exact hinv.1 k rec hf,
      fun k hf => by rw [hkeq k]; exact hinv.2 k hf⟩
  case pos =>
    have hkne : ∀ k, k ≠ refKeyOf r → keyOccs idx k (done ++ [r]) = keyOccs idx k done := by
      intro k hk
      rw [keyOccs_append, keyOccs_singleton_zero (by simp [Ne.symm hk]), Nat.add_zero]
    have hkeq : keyOccs idx (refKeyOf r) (done ++ [r]) =
        keyOccs idx (refKeyOf r) done + 1 := by
      rw [keyOccs_append, keyOccs_singleton_pos he rfl]
    cases hf0 : mapFind freq (refKeyOf r) with
    | none =>
      rw [processRef_eq_new he hf0]
      have hz := hinv.2 (refKeyOf r) hf0
      have hto : totalOccs idx (refKeyOf r) rm = 0 := by omega
      have hko : keyOccs idx (refKeyOf r) done = 0 := by omega
      constructor
      · intro k rec hf
        by_cases hk : k = refKeyOf r
        · subst hk
          rw [mapFind_mapSet_self] at hf
          cases hf
          refine ⟨rfl, ?_, ?_⟩
          · rw [hkeq]
            show 1 = _
            omega
          · rw [citingSources_eq_nil_of_totalOccs_zero hto, hkeq, hko]
            simp
        · rw [mapFind_mapSet_ne _ _ hk, mapFind_mapSet_ne _ _ hk] at hf
          rw [hkne k hk]
          exact hinv.1 k rec hf
      · intro k hf
        by_cases hk : k = refKeyOf r
        · subst hk
          rw [mapFind_mapSet_self] at hf
          cases hf
        · rw [mapFind_mapSet_ne _ _ hk, mapFind_mapSet_ne _ _ hk] at hf
          rw [hkne k hk]
          exact hinv.2 k hf
    | some rec0 =>
      rw [processRef_eq_update he hf0]
      obtain ⟨hkey0, hcount0, hcb0⟩ := hinv.1 (refKeyOf r) rec0 hf0
      have hcknotin : ck ∉ citingSources idx (refKeyOf r) rm :=
        fun hmem => hck (mem_citingSources hmem)
      have hcontains : rec0.citedBy.contains ck =
          decide (0 < keyOccs idx (refKeyOf r) done) := by
        by_cases hocc : 0 < keyOccs idx (refKeyOf r) done
        · rw [hcb0, if_pos hocc]
          simp [hocc, List.elem_iff]
        · rw [hcb0, if_neg hocc]
          simp only [List.append_nil]
          simp [hocc, List.elem_iff, hcknotin]
      constructor
      · intro k rec hf
        by_cases hk : k = refKeyOf r
        · subst hk
          rw [mapFind_mapSet_self] at hf
          by_cases hocc : 0 < keyOccs idx (refKeyOf r) done
          · rw [hcontains, if_pos (by simpa using hocc)] at hf
            cases hf
            refine ⟨hkey0, ?_, ?_⟩
            · rw [hkeq]
              show rec0.count + 1 = _
              omega
            · rw [hcb0, if_pos hocc, if_pos (by omega)]
          · rw [hcontains, if_neg (by simpa using hocc)] at hf
            cases hf
            refine ⟨hkey0, ?_, ?_⟩
            · rw [hkeq]
              show rec0.count + 1 = _
              omega
            · rw [hcb0, if_neg hocc, if_pos (by omega), List.append_nil]
        · rw [mapFind_mapSet_ne _ _ hk] at hf
          rw [hkne k hk]
          exact hinv.1 k rec hf
      · intro k hf
        by_cases hk : k = refKeyOf r
        · subst hk
          rw [mapFind_mapSet_self] at hf
          cases hf
        · rw [mapFind_mapSet_ne _ _ hk] at hf
          rw [hkne k hk]
          exact hinv.2 k hf

theorem processRef_foldl (idx : ExistingIndex) (rm : ReferencesMap)
    (ck : String) (hck : ck ∉ rm.map Prod.fst) :
    ∀ (refs done : List SSRef) (freq : List (String × FreqRec)),
      innerInv idx rm ck done freq →
      innerInv idx rm ck (done ++ refs) (refs.foldl (processRef idx ck) freq) := by
  intro refs
  induction refs with
  | nil =>
    intro done freq h
    rw [List.append_nil]
    exact h
  | cons r rs ih =>
    intro done freq h
    rw [List.foldl_cons, show done ++ r :: rs = (done ++ [r]) ++ rs by simp]
    exact ih (done ++ [r]) _ (processRef_step idx rm ck hck done r freq h)

/-- The outer invariant: the frequency map reflects, per Reference Key, the
total matching entries (with multiplicity) and the citing sources of the
whole references map. -/
def freqInv (idx : ExistingIndex) (rm : ReferencesMap)
    (freq : List (String × FreqRec)) : Prop :=
  (∀ k rec, mapFind freq k = some rec →
    refKeyOf rec.reference = k ∧
    rec.count = totalOccs idx k rm ∧
    rec.citedBy = citingSources idx k rm) ∧
  (∀ k, mapFind freq k = none → totalOccs idx k rm = 0)

theorem referenceFrequency_spec (idx : ExistingIndex) :
    ∀ rm : ReferencesMap, (rm.map Prod.fst).Nodup →
      freqInv idx rm (referenceFrequency idx rm) := by
  intro rm
  induction rm using List.reverseRecOn with
  | nil =>
    intro _
    constructor
    · intro k rec h
      simp [referenceFrequency, mapFind] at h
    · intro k _
      rfl
  | append_singleton rm src ih =>
    intro hnd
    rw [List.map_append, List.nodup_append] at hnd
    obtain ⟨hnd1, _, hdisj⟩ := hnd
    have hsrc : src.1 ∉ rm.map Prod.fst := by
      intro hmem
      exact hdisj hmem (by simp)
    have hfold : referenceFrequency idx (rm ++ [src]) =
        src.2.foldl (processRef idx src.1) (referenceFrequency idx rm) := by
      simp [referenceFrequency, List.foldl_append]
    have hprev := ih hnd1
    have hinner0 : innerInv idx rm src.1 [] (referenceFrequency idx rm) := by
      constructor
      · intro k rec hf
        obtain ⟨h1, h2, h3⟩ := hprev.1 k rec hf
        refine ⟨h1, ?_, ?_⟩
        · rw [keyOccs_nil, Nat.add_zero]
          exact h2
        · rw [keyOccs_nil, if_neg (by omega), List.append_nil]
          exact h3
      · intro k hf
        rw [keyOccs_nil, Nat.add_zero]
        exact hprev.2 k hf
    have hinner := processRef_foldl idx rm src.1 hsrc src.2 [] _ hinner0
    rw [List.nil_append] at hinner
    rw [hfold]
    constructor
    · intro k rec hf
      obtain ⟨h1, h2, h3⟩ := hinner.1 k rec hf
      refine ⟨h1, ?_, ?_⟩
      · rw [totalOccs_append_singleton]
        exact h2
      · rw [citingSources_append_singleton]
        exact h3
    · intro k hf
      rw [totalOccs_append_singleton]
      exact hinner.2 k hf

theorem keysNodup_processRef {idx : ExistingIndex} {ck : String}
    {freq : List (String × FreqRec)} {r : SSRef} (h : keysNodup freq) :
    keysNodup (processRef idx ck freq r) := by
  by_cases he : eligibleRef idx r = true
  · cases hf : mapFind freq (refKeyOf r) with
    | none =>
      rw [processRef_eq_new he hf]
      exact keysNodup_mapSet (keysNodup_mapSet h _ _) _ _
    | some rec =>
      rw [processRef_eq_update he hf]
      exact keysNodup_mapSet h _ _
  · rw [processRef_not_eligible (by simpa using he)]
    exact h

theorem keysNodup_referenceFrequency (idx : ExistingIndex)
    (rm : ReferencesMap) : keysNodup (referenceFrequency idx rm) := by
  have haux : ∀ (ck : String) (refs : List SSRef)
      (freq : List (String × FreqRec)), keysNodup freq →
      keysNodup (refs.foldl (processRef idx ck) freq) := by
    intro ck refs
    induction refs with
    | nil => intro freq h; exact h
    | cons r rs ih =>
      intro freq h
      rw [List.foldl_cons]
      exact ih _ (keysNodup_processRef h)
  have hmain : ∀ (rm : ReferencesMap) (freq : List (String × FreqRec)),
      keysNodup freq →
      keysNodup (rm.foldl
        (fun freq entry => entry.2.foldl (processRef idx entry.1) freq) freq) := by
    intro rm
    induction rm with
    | nil => intro freq h; exact h
    | cons src rest ih =>
      intro freq h
      rw [List.foldl_cons]
      exact ih _ (haux src.1 src.2 freq h)
  exact hmain rm [] keysNodup_nil

/-- C2 (amended): for every Reference Frequency Record produced by
`analyzeGaps`, `count` equals the TOTAL number of matching entries across all
sources' reference lists, counted with multiplicity — a repeated matching
entry within one source's list increments it each time — while `citedBy`
lists exactly the distinct sources contributing at least one match, in map
order.  `count` therefore equals `citedBy.length` only when no source's list
repeats a matching entry. -/
theorem analyzeGaps_count_characterization (usedCitations : List BibEntry)
    (referencesMap : ReferencesMap) (minCitations : Nat)
    (hnd : (referencesMap.map Prod.fst).Nodup) :
    ∀ g ∈ analyzeGaps usedCitations referencesMap minCitations,
      g.count = totalOccs (buildExistingPapersIndex usedCitations)
        (refKeyOf g.reference) referencesMap ∧
      g.citedBy = citingSources (buildExistingPapersIndex usedCitations)
        (refKeyOf g.reference) referencesMap := by
  intro g hg
  simp only [analyzeGaps] at hg
  rw [mem_sortByCountDesc] at hg
  rcases List.mem_map.mp hg with ⟨p, hp, rfl⟩
  have hpfreq := (List.mem_filter.mp hp).1
  have hfind : mapFind (referenceFrequency
      (buildExistingPapersIndex usedCitations) referencesMap) p.1 = some p.2 :=
    mapFind_of_mem_nodup (keysNodup_referenceFrequency _ _) hpfreq
  obtain ⟨h1, h2, h3⟩ :=
    (referenceFrequency_spec (buildExistingPapersIndex usedCitations)
      referencesMap hnd).1 p.1 p.2 hfind
  exact ⟨by rw [h1]; exact h2, by rw [h1]; exact h3⟩

/-- A reference appearing twice in one source's reference list. -/
def c2Ref : SSRef :=
  { title := some "X", year := some 2020, externalIds := some { DOI := some "10.1/x" } }

/-- A references map with one source `A` listing `c2Ref` twice. -/
def c2Rm : ReferencesMap := [("A", [c2Ref, c2Ref])]

/-- C2 (counterexample): source `A`'s reference list contains the same
matching entry twice; `analyzeGaps` reports `count = 2` but
`citedBy = ["A"]`.  The count double-counts the repeat within one source, so
it equals neither the number of distinct citing sources (1) nor the length
of the deduplicated `citedBy` list. -/
theorem count_double_counts_within_source :
    (analyzeGaps [] c2Rm 2).map (fun g => (g.count, g.citedBy)) = [(2, ["A"])] :=
  rfl

/-- The record `analyzeGaps` produces for `c2Rm`. -/
def c2Rec : FreqRec := { count := 2, reference := c2Ref, citedBy := ["A"] }

/-- Witness for C2's amended theorem on the double-entry map `c2Rm`. -/
theorem analyzeGaps_count_characterization_witness :
    c2Rec.count = totalOccs (buildExistingPapersIndex [])
      (refKeyOf c2Rec.reference) c2Rm ∧
    c2Rec.citedBy = citingSources (buildExistingPapersIndex [])
      (refKeyOf c2Rec.reference) c2Rm :=
  analyzeGaps_count_characterization [] c2Rm 2 (by decide) c2Rec (by decide)
